import Mathlib

/-!
Verification of the MeuTeX document-assembly and rendering pipeline.

The development embeds, at the level of character lists (`String.data`),
the JavaScript functions of the repository:

* `resolveLatexImports` (src/App.tsx, lines 217-235): recursive expansion of
  `\input` / `\include` directives over a flat file map, with a per-branch
  visited set for cycle protection;
* the structural-heading pass of `parseLatexToHtml`
  (the Preview component, "step 9"): three sequential regex replaces for
  `\chapter`, `\section`, `\subsection` sharing mutable counters;
* the math passes of `parseLatexToHtml` ("step 13"): inline `$...$`,
  display `$$...$$` and bracket `\[...\]` spans;
* the image-binding logic of `parseLatexToHtml` ("step 8");
* `handleRecompile` (src/App.tsx, lines 237-298): entry-file selection and
  the diagnostic log of one compile pass.

JavaScript `String.replace(regex, fn)` with a global regex is modelled by a
left-to-right scan over the character list: at each position the (anchored)
regular expression is tried; on a match the replacement is emitted and the
scan continues after the match, otherwise the character is copied.
-/

namespace MeuTeX

/-- Characters of a string; the pipeline passes work on `String.data`. -/
abbrev Chars := List Char

/-! ## Basic scanning primitives -/

/-- Strip an expected literal prefix from a character list
    (`none` when the list does not start with it). -/
def stripPrefixChars : Chars → Chars → Option Chars
  | [], l => some l
  | _ :: _, [] => none
  | a :: as, b :: bs => if a = b then stripPrefixChars as bs else none

theorem stripPrefixChars_self (p r : Chars) : stripPrefixChars p (p ++ r) = some r := by
  induction p with
  | nil => rfl
  | cons a as ih => simp [stripPrefixChars, ih]

theorem stripPrefixChars_eq {p l r : Chars} (h : stripPrefixChars p l = some r) :
    l = p ++ r := by
  induction p generalizing l with
  | nil =>
    simp only [stripPrefixChars, Option.some.injEq] at h
    simp [h]
  | cons a as ih =>
    cases l with
    | nil => simp [stripPrefixChars] at h
    | cons b bs =>
      by_cases hab : a = b
      · subst hab
        simp only [stripPrefixChars, if_pos rfl] at h
        simp [ih h]
      · simp [stripPrefixChars, hab] at h

theorem stripPrefixChars_head_ne {a : Char} {as : Chars} {b : Char} {bs : Chars}
    (h : a ≠ b) : stripPrefixChars (a :: as) (b :: bs) = none := by
  simp [stripPrefixChars, h]

/-- `[^s]*` followed by the stop character `s`: splits `l` at the first
    occurrence of `stop`, returning the part before and the part after it. -/
def takeUntil (stop : Char) : Chars → Option (Chars × Chars)
  | [] => none
  | c :: cs =>
    if c = stop then some ([], cs)
    else (takeUntil stop cs).map fun br => (c :: br.1, br.2)

theorem takeUntil_append (stop : Char) (b r : Chars) (hb : ∀ c ∈ b, c ≠ stop) :
    takeUntil stop (b ++ stop :: r) = some (b, r) := by
  induction b with
  | nil => simp [takeUntil]
  | cons c cs ih =>
    have hc : c ≠ stop := hb c (by simp)
    have ih' := ih (fun x hx => hb x (by simp [hx]))
    simp [takeUntil, hc, ih']

theorem takeUntil_eq {stop : Char} {l b r : Chars} (h : takeUntil stop l = some (b, r)) :
    l = b ++ stop :: r := by
  induction l generalizing b r with
  | nil => simp [takeUntil] at h
  | cons c cs ih =>
    rw [takeUntil] at h
    split at h
    · rename_i hc
      rw [Option.some.injEq, Prod.mk.injEq] at h
      obtain ⟨hb, hr⟩ := h
      subst hc hb hr
      rfl
    · rw [Option.map_eq_some'] at h
      obtain ⟨⟨b0, r0⟩, hb0, hval⟩ := h
      cases hval
      simpa using ih hb0

/-! ## The command-argument regular expressions -/

/-- Match `\kw{arg}` (the regex `\\kw\{[^}]+\}`) anchored at the head of `l`:
    returns the nonempty argument and the text after the closing brace. -/
def matchCmdArg (kw : Chars) (l : Chars) : Option (Chars × Chars) :=
  (stripPrefixChars ('\\' :: (kw ++ ['\x7b'])) l).bind fun l1 =>
    (takeUntil '\x7d' l1).bind fun ar =>
      if ar.1 = [] then none else some ar

theorem matchCmdArg_some {kw l arg rest : Chars} (h : matchCmdArg kw l = some (arg, rest)) :
    l = '\\' :: kw ++ '\x7b' :: arg ++ '\x7d' :: rest ∧ arg ≠ [] := by
  unfold matchCmdArg at h
  simp only [Option.bind_eq_some] at h
  obtain ⟨l1, hs, ⟨a0, r0⟩, ht, hres⟩ := h
  by_cases ha : a0 = []
  · simp [ha] at hres
  · simp only [if_neg ha, Option.some.injEq] at hres
    cases hres
    refine ⟨?_, ha⟩
    have h1 := stripPrefixChars_eq hs
    have h2 := takeUntil_eq ht
    rw [h1, h2]
    simp

theorem matchCmdArg_length {kw l arg rest : Chars} (h : matchCmdArg kw l = some (arg, rest)) :
    rest.length < l.length := by
  have := (matchCmdArg_some h).1
  subst this
  simp
  omega

theorem matchCmdArg_head (kw arg rest : Chars) (harg : arg ≠ [])
    (hnb : ∀ c ∈ arg, c ≠ '\x7d') :
    matchCmdArg kw ('\\' :: kw ++ '\x7b' :: arg ++ '\x7d' :: rest) = some (arg, rest) := by
  unfold matchCmdArg
  have hshape : '\\' :: kw ++ '\x7b' :: arg ++ '\x7d' :: rest
      = ('\\' :: (kw ++ ['\x7b'])) ++ (arg ++ '\x7d' :: rest) := by simp
  rw [hshape, stripPrefixChars_self]
  simp only [Option.some_bind, takeUntil_append _ _ _ hnb, if_neg harg]

theorem matchCmdArg_head_ne {c : Char} (kw : Chars) (cs : Chars) (hc : c ≠ '\\') :
    matchCmdArg kw (c :: cs) = none := by
  unfold matchCmdArg
  rw [stripPrefixChars_head_ne (fun h => hc h.symm)]
  rfl

/-- The inclusion-directive regex of `resolveLatexImports`
    (`/\\(?:input|include)\{([^}]+)\}/`), anchored at the head of `l`;
    returns the captured path and the remaining text. -/
def matchDirective (l : Chars) : Option (Chars × Chars) :=
  match matchCmdArg "input".data l with
  | some pr => some pr
  | none => matchCmdArg "include".data l

theorem matchDirective_length {l path rest : Chars}
    (h : matchDirective l = some (path, rest)) : rest.length < l.length := by
  unfold matchDirective at h
  cases h1 : matchCmdArg "input".data l with
  | some pr =>
    rw [h1] at h
    cases h
    exact matchCmdArg_length h1
  | none =>
    rw [h1] at h
    exact matchCmdArg_length h

theorem matchDirective_head_ne {c : Char} (cs : Chars) (hc : c ≠ '\\') :
    matchDirective (c :: cs) = none := by
  unfold matchDirective
  rw [matchCmdArg_head_ne _ _ hc, matchCmdArg_head_ne _ _ hc]

theorem matchDirective_nil : matchDirective [] = none := rfl

theorem matchDirective_input (path rest : Chars) (hp : path ≠ [])
    (hnb : ∀ c ∈ path, c ≠ '\x7d') :
    matchDirective ('\\' :: "input".data ++ '\x7b' :: path ++ '\x7d' :: rest)
      = some (path, rest) := by
  unfold matchDirective
  rw [matchCmdArg_head _ _ _ hp hnb]

/-! ## The import resolver (`resolveLatexImports`, src/App.tsx lines 217-235)

```js
const resolveLatexImports = (content, fileMap, processed = new Set()) => {
    return content.replace(/\\(?:input|include)\{([^}]+)\}/g, (match, importPath) => {
        let filename = importPath.split('/').pop() || importPath;
        if (!filename.endsWith('.tex')) filename += '.tex';
        const fileNode = Object.values(fileMap).find(f => f.name === filename);
        if (processed.has(filename)) return `\n% Recursive loop detected: ${filename}\n`;
        if (fileNode && fileNode.content) {
            const newProcessed = new Set(processed);
            newProcessed.add(filename);
            return `\n% Begin ${filename}\n${resolveLatexImports(...)}\n% End ${filename}\n`;
        }
        return `\n% Missing file: ${filename}\n`;
    });
};
```

The file map (built by `flattenProjectFiles`, keyed by `node.name`) is
modelled as an association list of `(name, content)` pairs with distinct
names; `Object.values(fileMap).find(f => f.name === filename)` is then the
first association whose key is `filename`.  A file node whose `content` is
`undefined` is represented by the empty string (both are falsy in
`fileNode && fileNode.content`). -/

/-- JavaScript `str.split('/')` on character lists: splits at every slash,
    keeping empty segments (`"a/".split('/') = ["a", ""]`). -/
def splitOnSlash : Chars → List Chars
  | [] => [[]]
  | c :: cs =>
    match splitOnSlash cs with
    | [] => [[]]
    | h :: t => if c = '/' then [] :: h :: t else (c :: h) :: t

/-- `importPath.split('/').pop() || importPath`, then append `.tex` unless
    the name already ends with it (JS `endsWith`). -/
def normalizeImportName (importPath : String) : String :=
  let last := (splitOnSlash importPath.data).getLastD []
  let base := if last = [] then importPath.data else last
  if ".tex".data.isSuffixOf base then String.mk base
  else String.mk (base ++ ".tex".data)

/-- `` `\n% Recursive loop detected: ${filename}\n` `` -/
def loopMarker (filename : String) : String :=
  "\n% Recursive loop detected: " ++ filename ++ "\n"

/-- `` `\n% Missing file: ${filename}\n` `` -/
def missingMarker (filename : String) : String :=
  "\n% Missing file: " ++ filename ++ "\n"

/-- `` `\n% Begin ${filename}\n` `` -/
def beginMarker (filename : String) : String :=
  "\n% Begin " ++ filename ++ "\n"

/-- `` `\n% End ${filename}\n` `` -/
def endMarker (filename : String) : String :=
  "\n% End " ++ filename ++ "\n"

/-- Number of file-map entries whose name is not yet in the visited set;
    the recursion measure of the import resolver. -/
def unvisited (fm : List (String × String)) (pr : List String) : Nat :=
  (fm.filter (fun p => !(pr.contains p.1))).length

theorem length_filter_mono {α : Type} (l : List α) (p q : α → Bool)
    (himp : ∀ a, q a = true → p a = true) :
    (l.filter q).length ≤ (l.filter p).length := by
  induction l with
  | nil => simp
  | cons a t ih =>
    by_cases hq : q a = true
    · have hp := himp a hq
      simp [List.filter_cons, hq, hp]
      omega
    · by_cases hp : p a = true <;> simp [List.filter_cons, hq, hp] <;> omega

theorem length_filter_lt {α : Type} (l : List α) (p q : α → Bool)
    (himp : ∀ a, q a = true → p a = true)
    (x : α) (hx : x ∈ l) (hpx : p x = true) (hqx : q x = false) :
    (l.filter q).length < (l.filter p).length := by
  induction l with
  | nil => cases hx
  | cons a t ih =>
    rcases List.mem_cons.mp hx with rfl | hx'
    · have hmono := length_filter_mono t p q himp
      simp [List.filter_cons, hpx, hqx]
      omega
    · by_cases hq : q a = true
      · have hp := himp a hq
        simp [List.filter_cons, hq, hp]
        exact ih hx'
      · by_cases hp : p a = true <;> simp [List.filter_cons, hq, hp]
        · exact Nat.lt_succ_of_lt (ih hx')
        · exact ih hx'

theorem unvisited_lt (fm : List (String × String)) (pr : List String) (fn : String)
    (e : String × String) (he : e ∈ fm) (hefn : e.1 = fn)
    (hnp : pr.contains fn = false) :
    unvisited fm (fn :: pr) < unvisited fm pr := by
  refine length_filter_lt fm _ _ ?himp e he ?hpx ?hqx
  case himp =>
    intro a ha
    simp only [Bool.not_eq_true', List.contains_cons, Bool.or_eq_false_iff] at ha ⊢
    exact ha.2
  case hpx => rw [hefn, hnp]; rfl
  case hqx => simp [hefn, List.contains_cons]

/-- The import resolver on character lists.  Returns the resolved text
    together with two instrumentation counters: the number of
    `Recursive loop detected` markers emitted, and the maximum nesting depth
    of file expansions performed.  The text component is exactly the
    JavaScript function's result; totality of this definition (measured by
    the pair "file-map entries not yet visited" / remaining text length) is
    the termination of the source recursion. -/
def resolveAux (fm : List (String × String)) (content : Chars) (pr : List String) :
    Chars × Nat × Nat :=
  match content with
  | [] => ([], 0, 0)
  | c :: cs =>
    match hm : matchDirective (c :: cs) with
    | none =>
      let r := resolveAux fm cs pr
      (c :: r.1, r.2.1, r.2.2)
    | some (path, rest) =>
      let filename := normalizeImportName (String.mk path)
      if hp : pr.contains filename then
        let r := resolveAux fm rest pr
        ((loopMarker filename).data ++ r.1, r.2.1 + 1, r.2.2)
      else
        match hf : fm.find? (fun p => p.1 == filename) with
        | some entry =>
          if entry.2 = "" then
            let r := resolveAux fm rest pr
            ((missingMarker filename).data ++ r.1, r.2.1, r.2.2)
          else
            let ri := resolveAux fm entry.2.data (filename :: pr)
            let r := resolveAux fm rest pr
            ((beginMarker filename).data ++ ri.1 ++ (endMarker filename).data ++ r.1,
              ri.2.1 + r.2.1, max (1 + ri.2.2) r.2.2)
        | none =>
          let r := resolveAux fm rest pr
          ((missingMarker filename).data ++ r.1, r.2.1, r.2.2)
  termination_by (unvisited fm pr, content.length)
  decreasing_by
  · exact Prod.Lex.right _ (by simp)
  · exact Prod.Lex.right _ (matchDirective_length hm)
  · apply Prod.Lex.right _ (matchDirective_length hm)
  · apply Prod.Lex.left
    exact unvisited_lt fm pr filename entry (List.mem_of_find?_eq_some hf)
      (by have := List.find?_some hf; simpa using this)
      (by simpa using hp)
  · exact Prod.Lex.right _ (matchDirective_length hm)
  · exact Prod.Lex.right _ (matchDirective_length hm)

/-- `resolveLatexImports` (src/App.tsx lines 217-235) on strings; the
    visited set defaults to empty as in the source. -/
def resolveLatexImports (content : String) (fm : List (String × String))
    (pr : List String := []) : String :=
  String.mk (resolveAux fm content.data pr).1

/-- Number of inline `Recursive loop detected` markers emitted while
    resolving `content`. -/
def loopCount (content : String) (fm : List (String × String))
    (pr : List String := []) : Nat :=
  (resolveAux fm content.data pr).2.1

/-- Maximum nesting depth of file expansions performed while resolving
    `content` (the recursion depth of `resolveLatexImports` below the entry
    call). -/
def resolveDepth (content : String) (fm : List (String × String))
    (pr : List String := []) : Nat :=
  (resolveAux fm content.data pr).2.2

@[simp] theorem string_data_append (a b : String) : (a ++ b).data = a.data ++ b.data := rfl

theorem string_ne_empty_of_data {s : String} (h : s.data ≠ []) : s ≠ "" := by
  intro he
  exact h (by simp [he])

/-! ### Unfolding lemmas for the resolver -/

theorem resolveAux_nil (fm : List (String × String)) (pr : List String) :
    resolveAux fm [] pr = ([], 0, 0) := by
  rw [resolveAux]

theorem resolveAux_char (fm : List (String × String)) (pr : List String)
    (c : Char) (cs : Chars) (h : matchDirective (c :: cs) = none) :
    resolveAux fm (c :: cs) pr =
      (c :: (resolveAux fm cs pr).1, (resolveAux fm cs pr).2.1,
        (resolveAux fm cs pr).2.2) := by
  rw [resolveAux]
  split
  · rfl
  · rename_i path rest heq
    rw [h] at heq
    cases heq

theorem resolveAux_dir_loop (fm : List (String × String)) (pr : List String)
    (l path rest : Chars) (h : matchDirective l = some (path, rest))
    (hp : pr.contains (normalizeImportName (String.mk path)) = true) :
    resolveAux fm l pr =
      ((loopMarker (normalizeImportName (String.mk path))).data
          ++ (resolveAux fm rest pr).1,
        (resolveAux fm rest pr).2.1 + 1, (resolveAux fm rest pr).2.2) := by
  cases l with
  | nil => rw [matchDirective_nil] at h; cases h
  | cons c cs =>
  rw [resolveAux]
  split
  · rename_i heq
    rw [h] at heq
    cases heq
  · rename_i path' rest' heq
    rw [h] at heq
    cases heq
    rw [dif_pos hp]

theorem resolveAux_dir_expand (fm : List (String × String)) (pr : List String)
    (l path rest : Chars) (h : matchDirective l = some (path, rest))
    (hp : pr.contains (normalizeImportName (String.mk path)) = false)
    (entry : String × String)
    (hf : fm.find? (fun p => p.1 == normalizeImportName (String.mk path)) = some entry)
    (hne : entry.2 ≠ "") :
    resolveAux fm l pr =
      ((beginMarker (normalizeImportName (String.mk path))).data
          ++ (resolveAux fm entry.2.data (normalizeImportName (String.mk path) :: pr)).1
          ++ (endMarker (normalizeImportName (String.mk path))).data
          ++ (resolveAux fm rest pr).1,
        (resolveAux fm entry.2.data (normalizeImportName (String.mk path) :: pr)).2.1
          + (resolveAux fm rest pr).2.1,
        max (1 + (resolveAux fm entry.2.data (normalizeImportName (String.mk path) :: pr)).2.2)
          (resolveAux fm rest pr).2.2) := by
  cases l with
  | nil => rw [matchDirective_nil] at h; cases h
  | cons c cs =>
  rw [resolveAux]
  split
  · rename_i heq
    rw [h] at heq
    cases heq
  · rename_i path' rest' heq
    rw [h] at heq
    cases heq
    rw [dif_neg (by rw [hp]; simp)]
    split
    · rename_i entry' hfeq
      rw [hf] at hfeq
      cases hfeq
      rw [if_neg hne]
    · rename_i hfeq
      rw [hf] at hfeq
      cases hfeq

theorem resolveAux_dir_missing_empty (fm : List (String × String)) (pr : List String)
    (l path rest : Chars) (h : matchDirective l = some (path, rest))
    (hp : pr.contains (normalizeImportName (String.mk path)) = false)
    (entry : String × String)
    (hf : fm.find? (fun p => p.1 == normalizeImportName (String.mk path)) = some entry)
    (hemp : entry.2 = "") :
    resolveAux fm l pr =
      ((missingMarker (normalizeImportName (String.mk path))).data
          ++ (resolveAux fm rest pr).1,
        (resolveAux fm rest pr).2.1, (resolveAux fm rest pr).2.2) := by
  cases l with
  | nil => rw [matchDirective_nil] at h; cases h
  | cons c cs =>
  rw [resolveAux]
  split
  · rename_i heq
    rw [h] at heq
    cases heq
  · rename_i path' rest' heq
    rw [h] at heq
    cases heq
    rw [dif_neg (by rw [hp]; simp)]
    split
    · rename_i entry' hfeq
      rw [hf] at hfeq
      cases hfeq
      rw [if_pos hemp]
    · rename_i hfeq
      rw [hf] at hfeq

theorem resolveAux_dir_missing_absent (fm : List (String × String)) (pr : List String)
    (l path rest : Chars) (h : matchDirective l = some (path, rest))
    (hp : pr.contains (normalizeImportName (String.mk path)) = false)
    (hf : fm.find? (fun p => p.1 == normalizeImportName (String.mk path)) = none) :
    resolveAux fm l pr =
      ((missingMarker (normalizeImportName (String.mk path))).data
          ++ (resolveAux fm rest pr).1,
        (resolveAux fm rest pr).2.1, (resolveAux fm rest pr).2.2) := by
  cases l with
  | nil => rw [matchDirective_nil] at h; cases h
  | cons c cs =>
  rw [resolveAux]
  split
  · rename_i heq
    rw [h] at heq
    cases heq
  · rename_i path' rest' heq
    rw [h] at heq
    cases heq
    rw [dif_neg (by rw [hp]; simp)]
    split
    · rename_i entry' hfeq
      rw [hf] at hfeq
      cases hfeq
    · rfl

/-- Text with no backslash passes through the resolver unchanged: no
    inclusion directive can match at any of its positions. -/
theorem resolveAux_text (fm : List (String × String)) (pr : List String)
    (t rest : Chars) (ht : ∀ c ∈ t, c ≠ '\\') :
    resolveAux fm (t ++ rest) pr =
      (t ++ (resolveAux fm rest pr).1, (resolveAux fm rest pr).2.1,
        (resolveAux fm rest pr).2.2) := by
  induction t with
  | nil => simp
  | cons c cs ih =>
    have hm : matchDirective (c :: (cs ++ rest)) = none :=
      matchDirective_head_ne _ (ht c (by simp))
    have ih' := ih (fun x hx => ht x (by simp [hx]))
    rw [List.cons_append, resolveAux_char fm pr c (cs ++ rest) hm, ih']
    rfl

/-- A backslash-free text resolves to itself. -/
theorem resolveAux_text_only (fm : List (String × String)) (pr : List String)
    (t : Chars) (ht : ∀ c ∈ t, c ≠ '\\') :
    resolveAux fm t pr = (t, 0, 0) := by
  have := resolveAux_text fm pr t [] ht
  simpa [resolveAux_nil] using this

/-! ### Depth bound: the recursion never nests deeper than the number of
file-map entries not yet visited (in particular, never deeper than the
number of distinct files). -/

theorem resolveAux_depth_le (fm : List (String × String)) (content : Chars)
    (pr : List String) : (resolveAux fm content pr).2.2 ≤ unvisited fm pr := by
  induction content, pr using resolveAux.induct fm with
  | case1 pr => rw [resolveAux_nil]; simp
  | case2 pr c cs hm ih =>
    rw [resolveAux_char fm pr c cs hm]
    exact ih
  | case3 pr c cs path rest hm fn hp ih =>
    rw [resolveAux_dir_loop fm pr (c :: cs) path rest hm hp]
    exact ih
  | case4 pr c cs path rest hm fn hp entry hf hemp ih =>
    have hp' : pr.contains (normalizeImportName (String.mk path)) = false := by
      simpa using hp
    rw [resolveAux_dir_missing_empty fm pr (c :: cs) path rest hm hp' entry hf hemp]
    exact ih
  | case5 pr c cs path rest hm fn hp entry hf hne ih1 ih2 =>
    have hp' : pr.contains (normalizeImportName (String.mk path)) = false := by
      simpa using hp
    rw [resolveAux_dir_expand fm pr (c :: cs) path rest hm hp' entry hf hne]
    have hlt : unvisited fm (normalizeImportName (String.mk path) :: pr) < unvisited fm pr :=
      unvisited_lt fm pr _ entry (List.mem_of_find?_eq_some hf)
        (by have := List.find?_some hf; simpa using this) hp'
    have ih1' : (resolveAux fm entry.2.data (normalizeImportName (String.mk path) :: pr)).2.2
        ≤ unvisited fm (normalizeImportName (String.mk path) :: pr) := ih1
    refine Nat.max_le.mpr ⟨?_, ih2⟩
    omega
  | case6 pr c cs path rest hm fn hp hf ih =>
    have hp' : pr.contains (normalizeImportName (String.mk path)) = false := by
      simpa using hp
    rw [resolveAux_dir_missing_absent fm pr (c :: cs) path rest hm hp' hf]
    exact ih

theorem unvisited_le_length (fm : List (String × String)) (pr : List String) :
    unvisited fm pr ≤ fm.length :=
  List.length_filter_le _ _

/-! ## Claim C1: mutual inclusion cycle -/

/-- Bool-level backslash-freedom of a string: none of its characters is a
    backslash, so no directive can match at any of its positions
    (decidable side condition for the pass-through lemmas). -/
def backslashFree (s : String) : Bool := s.data.all (fun c => !(c == '\\'))

theorem backslashFree_spec {s : String} (h : backslashFree s = true) :
    ∀ c ∈ s.data, c ≠ '\\' := by
  intro c hc
  have := List.all_eq_true.mp h c hc
  simpa using this

@[simp] theorem string_mk_data (s : String) : String.mk s.data = s := rfl

/-- C1: for any file map `a.tex ↦ t1\input{b}t2`, `b.tex ↦ t3\input{a}t4`
    (the surrounding texts containing no backslash, hence no further
    directives), resolving `a.tex`'s content terminates with exactly one
    inline `Recursive loop detected` marker, naming `b.tex`; below the
    marker nothing is expanded (the marker replaces the directive, and the
    sibling text `t2` after it is still processed), and the nesting depth
    of file expansions is exactly 2, the number of distinct files.
    (Termination itself is witnessed by `resolveAux` being total, with the
    recursion measure `(unvisited, text length)`.) -/
theorem cycle_termination (t1 t2 t3 t4 : String)
    (h1 : backslashFree t1 = true) (h2 : backslashFree t2 = true)
    (h3 : backslashFree t3 = true) (h4 : backslashFree t4 = true) :
    resolveLatexImports (t1 ++ "\\input{b}" ++ t2)
        [("a.tex", t1 ++ "\\input{b}" ++ t2), ("b.tex", t3 ++ "\\input{a}" ++ t4)] []
      = t1 ++ (beginMarker "b.tex"
          ++ (t3 ++ (beginMarker "a.tex"
                ++ (t1 ++ (loopMarker "b.tex" ++ t2))
                ++ (endMarker "a.tex" ++ t4)))
          ++ (endMarker "b.tex" ++ t2))
    ∧ loopCount (t1 ++ "\\input{b}" ++ t2)
        [("a.tex", t1 ++ "\\input{b}" ++ t2), ("b.tex", t3 ++ "\\input{a}" ++ t4)] [] = 1
    ∧ resolveDepth (t1 ++ "\\input{b}" ++ t2)
        [("a.tex", t1 ++ "\\input{b}" ++ t2), ("b.tex", t3 ++ "\\input{a}" ++ t4)] [] = 2 := by
  set ca := t1 ++ "\\input{b}" ++ t2 with hca
  set cb := t3 ++ "\\input{a}" ++ t4 with hcb
  set fm : List (String × String) := [("a.tex", ca), ("b.tex", cb)] with hfm
  have hbq : normalizeImportName (String.mk "b".data) = "b.tex" := by decide
  have haq : normalizeImportName (String.mk "a".data) = "a.tex" := by decide
  have hcadata : ca.data = t1.data ++ ("\\input{b}".data ++ t2.data) := by
    rw [hca]; simp
  have hcbdata : cb.data = t3.data ++ ("\\input{a}".data ++ t4.data) := by
    rw [hcb]; simp
  have hmB : ∀ r : Chars, matchDirective ("\\input{b}".data ++ r) = some ("b".data, r) :=
    fun r => matchDirective_input "b".data r (by decide) (by decide)
  have hmA : ∀ r : Chars, matchDirective ("\\input{a}".data ++ r) = some ("a".data, r) :=
    fun r => matchDirective_input "a".data r (by decide) (by decide)
  have hcont0 : ([] : List String).contains (normalizeImportName (String.mk "b".data))
      = false := by decide
  have hcont1 : (["b.tex"] : List String).contains (normalizeImportName (String.mk "a".data))
      = false := by decide
  have hcont2 : (["a.tex", "b.tex"] : List String).contains
      (normalizeImportName (String.mk "b".data)) = true := by decide
  have hne_ca : ca ≠ "" := by
    apply string_ne_empty_of_data
    rw [hcadata]
    intro hh
    rw [List.append_eq_nil] at hh
    have : ("\\input{b}".data : Chars) ≠ [] := by decide
    exact this (List.append_eq_nil.mp hh.2).1
  have hne_cb : cb ≠ "" := by
    apply string_ne_empty_of_data
    rw [hcbdata]
    intro hh
    rw [List.append_eq_nil] at hh
    have : ("\\input{a}".data : Chars) ≠ [] := by decide
    exact this (List.append_eq_nil.mp hh.2).1
  have hfind_b : fm.find? (fun p => p.1 == normalizeImportName (String.mk "b".data))
      = some ("b.tex", cb) := by
    rw [hbq, hfm]
    rw [List.find?_cons_of_neg _ (by simp), List.find?_cons_of_pos _ (by simp)]
  have hfind_a : fm.find? (fun p => p.1 == normalizeImportName (String.mk "a".data))
      = some ("a.tex", ca) := by
    rw [haq, hfm]
    rw [List.find?_cons_of_pos _ (by simp)]
  -- innermost re-entry into a.tex: the directive naming b.tex is now in the
  -- visited set, so it is replaced by the loop marker and nothing expands
  have e3 : resolveAux fm ca.data ["a.tex", "b.tex"]
      = (t1.data ++ ((loopMarker "b.tex").data ++ t2.data), 1, 0) := by
    rw [hcadata, resolveAux_text fm _ t1.data _ (backslashFree_spec h1),
      resolveAux_dir_loop fm _ _ _ _ (hmB t2.data) hcont2,
      resolveAux_text_only fm _ t2.data (backslashFree_spec h2), hbq]
  -- expansion of a.tex from b.tex
  have e2 : resolveAux fm cb.data ["b.tex"]
      = (t3.data ++ ((beginMarker "a.tex").data
            ++ (t1.data ++ ((loopMarker "b.tex").data ++ t2.data))
            ++ ((endMarker "a.tex").data ++ t4.data)), 1, 1) := by
    rw [hcbdata, resolveAux_text fm _ t3.data _ (backslashFree_spec h3),
      resolveAux_dir_expand fm _ _ _ _ (hmA t4.data) hcont1 ("a.tex", ca) hfind_a hne_ca,
      haq]
    rw [e3, resolveAux_text_only fm _ t4.data (backslashFree_spec h4)]
    simp [List.append_assoc]
  -- entry resolution of a.tex
  have e1 : resolveAux fm ca.data []
      = (t1.data ++ ((beginMarker "b.tex").data
            ++ (t3.data ++ ((beginMarker "a.tex").data
                  ++ (t1.data ++ ((loopMarker "b.tex").data ++ t2.data))
                  ++ ((endMarker "a.tex").data ++ t4.data)))
            ++ ((endMarker "b.tex").data ++ t2.data)), 1, 2) := by
    rw [hcadata, resolveAux_text fm _ t1.data _ (backslashFree_spec h1),
      resolveAux_dir_expand fm _ _ _ _ (hmB t2.data) hcont0 ("b.tex", cb) hfind_b hne_cb,
      hbq]
    rw [e2, resolveAux_text_only fm _ t2.data (backslashFree_spec h2)]
    simp [List.append_assoc]
  refine ⟨?_, ?_, ?_⟩
  · show String.mk (resolveAux fm ca.data []).1 = _
    rw [e1]
    conv_rhs => rw [← string_mk_data (t1 ++ (beginMarker "b.tex"
          ++ (t3 ++ (beginMarker "a.tex"
                ++ (t1 ++ (loopMarker "b.tex" ++ t2))
                ++ (endMarker "a.tex" ++ t4)))
          ++ (endMarker "b.tex" ++ t2)))]
    exact congrArg String.mk (by simp [List.append_assoc])
  · show (resolveAux fm ca.data []).2.1 = 1
    rw [e1]
  · show (resolveAux fm ca.data []).2.2 = 2
    rw [e1]

/-- Witness for C1 at concrete surrounding texts. -/
theorem cycle_termination_witness :
    resolveLatexImports ("X" ++ "\\input{b}" ++ "Y")
        [("a.tex", "X" ++ "\\input{b}" ++ "Y"), ("b.tex", "U" ++ "\\input{a}" ++ "V")] []
      = "X" ++ (beginMarker "b.tex"
          ++ ("U" ++ (beginMarker "a.tex"
                ++ ("X" ++ (loopMarker "b.tex" ++ "Y"))
                ++ (endMarker "a.tex" ++ "V")))
          ++ (endMarker "b.tex" ++ "Y"))
    ∧ loopCount ("X" ++ "\\input{b}" ++ "Y")
        [("a.tex", "X" ++ "\\input{b}" ++ "Y"), ("b.tex", "U" ++ "\\input{a}" ++ "V")] [] = 1
    ∧ resolveDepth ("X" ++ "\\input{b}" ++ "Y")
        [("a.tex", "X" ++ "\\input{b}" ++ "Y"), ("b.tex", "U" ++ "\\input{a}" ++ "V")] [] = 2 :=
  cycle_termination "X" "Y" "U" "V" (by decide) (by decide) (by decide) (by decide)

/-! ## Claim C2: diamond-shaped inclusion -/

/-- C2: for a file map `a.tex ↦ t1\input{b}t2\input{c}t3`,
    `b.tex ↦ s1\input{d}s2`, `c.tex ↦ u1\input{d}u2`, `d.tex ↦ cd`
    (surrounding texts and `cd` backslash-free, `cd` nonempty), resolving
    `a.tex` succeeds: `d.tex`'s content appears once per branch (twice in
    all) and no `Recursive loop detected` marker is emitted — each recursive
    call receives a fresh copy of the visited set, so the sibling branch
    through `c.tex` is not affected by the earlier branch through `b.tex`. -/
theorem diamond_inclusion (t1 t2 t3 s1 s2 u1 u2 cd : String)
    (h1 : backslashFree t1 = true) (h2 : backslashFree t2 = true)
    (h3 : backslashFree t3 = true) (h4 : backslashFree s1 = true)
    (h5 : backslashFree s2 = true) (h6 : backslashFree u1 = true)
    (h7 : backslashFree u2 = true) (h8 : backslashFree cd = true)
    (hcd : cd ≠ "") :
    resolveLatexImports (t1 ++ "\\input{b}" ++ t2 ++ "\\input{c}" ++ t3)
        [("a.tex", t1 ++ "\\input{b}" ++ t2 ++ "\\input{c}" ++ t3),
         ("b.tex", s1 ++ "\\input{d}" ++ s2),
         ("c.tex", u1 ++ "\\input{d}" ++ u2),
         ("d.tex", cd)] []
      = t1 ++ (beginMarker "b.tex"
            ++ (s1 ++ (beginMarker "d.tex" ++ (cd ++ (endMarker "d.tex" ++ s2)))
                ++ (endMarker "b.tex"
                      ++ (t2 ++ (beginMarker "c.tex"
                            ++ (u1 ++ (beginMarker "d.tex"
                                  ++ (cd ++ (endMarker "d.tex" ++ u2)))
                                ++ (endMarker "c.tex" ++ t3)))))))
    ∧ loopCount (t1 ++ "\\input{b}" ++ t2 ++ "\\input{c}" ++ t3)
        [("a.tex", t1 ++ "\\input{b}" ++ t2 ++ "\\input{c}" ++ t3),
         ("b.tex", s1 ++ "\\input{d}" ++ s2),
         ("c.tex", u1 ++ "\\input{d}" ++ u2),
         ("d.tex", cd)] [] = 0 := by
  set ca := t1 ++ "\\input{b}" ++ t2 ++ "\\input{c}" ++ t3 with hca
  set cb := s1 ++ "\\input{d}" ++ s2 with hcb
  set cc := u1 ++ "\\input{d}" ++ u2 with hcc
  set fm : List (String × String) :=
    [("a.tex", ca), ("b.tex", cb), ("c.tex", cc), ("d.tex", cd)] with hfm
  have hbq : normalizeImportName (String.mk "b".data) = "b.tex" := by decide
  have hcq : normalizeImportName (String.mk "c".data) = "c.tex" := by decide
  have hdq : normalizeImportName (String.mk "d".data) = "d.tex" := by decide
  have hcadata : ca.data
      = t1.data ++ ("\\input{b}".data ++ (t2.data ++ ("\\input{c}".data ++ t3.data))) := by
    rw [hca]; simp
  have hcbdata : cb.data = s1.data ++ ("\\input{d}".data ++ s2.data) := by
    rw [hcb]; simp
  have hccdata : cc.data = u1.data ++ ("\\input{d}".data ++ u2.data) := by
    rw [hcc]; simp
  have hmB : ∀ r : Chars, matchDirective ("\\input{b}".data ++ r) = some ("b".data, r) :=
    fun r => matchDirective_input "b".data r (by decide) (by decide)
  have hmC : ∀ r : Chars, matchDirective ("\\input{c}".data ++ r) = some ("c".data, r) :=
    fun r => matchDirective_input "c".data r (by decide) (by decide)
  have hmD : ∀ r : Chars, matchDirective ("\\input{d}".data ++ r) = some ("d".data, r) :=
    fun r => matchDirective_input "d".data r (by decide) (by decide)
  have hcont0b : ([] : List String).contains (normalizeImportName (String.mk "b".data))
      = false := by decide
  have hcont0c : ([] : List String).contains (normalizeImportName (String.mk "c".data))
      = false := by decide
  have hcontbd : (["b.tex"] : List String).contains (normalizeImportName (String.mk "d".data))
      = false := by decide
  have hcontcd : (["c.tex"] : List String).contains (normalizeImportName (String.mk "d".data))
      = false := by decide
  have hne_cb : cb ≠ "" := by
    apply string_ne_empty_of_data
    rw [hcbdata]
    intro hh
    rw [List.append_eq_nil] at hh
    have : ("\\input{d}".data : Chars) ≠ [] := by decide
    exact this (List.append_eq_nil.mp hh.2).1
  have hne_cc : cc ≠ "" := by
    apply string_ne_empty_of_data
    rw [hccdata]
    intro hh
    rw [List.append_eq_nil] at hh
    have : ("\\input{d}".data : Chars) ≠ [] := by decide
    exact this (List.append_eq_nil.mp hh.2).1
  have hfind_b : fm.find? (fun p => p.1 == normalizeImportName (String.mk "b".data))
      = some ("b.tex", cb) := by
    rw [hbq, hfm]
    rw [List.find?_cons_of_neg _ (by simp), List.find?_cons_of_pos _ (by simp)]
  have hfind_c : fm.find? (fun p => p.1 == normalizeImportName (String.mk "c".data))
      = some ("c.tex", cc) := by
    rw [hcq, hfm]
    rw [List.find?_cons_of_neg _ (by simp), List.find?_cons_of_neg _ (by simp),
      List.find?_cons_of_pos _ (by simp)]
  have hfind_d : fm.find? (fun p => p.1 == normalizeImportName (String.mk "d".data))
      = some ("d.tex", cd) := by
    rw [hdq, hfm]
    rw [List.find?_cons_of_neg _ (by simp), List.find?_cons_of_neg _ (by simp),
      List.find?_cons_of_neg _ (by simp), List.find?_cons_of_pos _ (by simp)]
  have e_b : resolveAux fm cb.data ["b.tex"]
      = (s1.data ++ ((beginMarker "d.tex").data
            ++ (cd.data ++ ((endMarker "d.tex").data ++ s2.data))), 0, 1) := by
    rw [hcbdata, resolveAux_text fm _ s1.data _ (backslashFree_spec h4),
      resolveAux_dir_expand fm _ _ _ _ (hmD s2.data) hcontbd ("d.tex", cd) hfind_d hcd,
      hdq]
    rw [resolveAux_text_only fm _ cd.data (backslashFree_spec h8),
      resolveAux_text_only fm _ s2.data (backslashFree_spec h5)]
    simp [List.append_assoc]
  have e_c : resolveAux fm cc.data ["c.tex"]
      = (u1.data ++ ((beginMarker "d.tex").data
            ++ (cd.data ++ ((endMarker "d.tex").data ++ u2.data))), 0, 1) := by
    rw [hccdata, resolveAux_text fm _ u1.data _ (backslashFree_spec h6),
      resolveAux_dir_expand fm _ _ _ _ (hmD u2.data) hcontcd ("d.tex", cd) hfind_d hcd,
      hdq]
    rw [resolveAux_text_only fm _ cd.data (backslashFree_spec h8),
      resolveAux_text_only fm _ u2.data (backslashFree_spec h7)]
    simp [List.append_assoc]
  have e_rest : resolveAux fm (t2.data ++ ("\\input{c}".data ++ t3.data)) []
      = (t2.data ++ ((beginMarker "c.tex").data
            ++ ((u1.data ++ ((beginMarker "d.tex").data
                  ++ (cd.data ++ ((endMarker "d.tex").data ++ u2.data))))
                ++ ((endMarker "c.tex").data ++ t3.data))), 0, 2) := by
    rw [resolveAux_text fm _ t2.data _ (backslashFree_spec h2),
      resolveAux_dir_expand fm _ _ _ _ (hmC t3.data) hcont0c ("c.tex", cc) hfind_c hne_cc,
      hcq]
    rw [e_c, resolveAux_text_only fm _ t3.data (backslashFree_spec h3)]
    simp [List.append_assoc]
  have e_1 : resolveAux fm ca.data []
      = (t1.data ++ ((beginMarker "b.tex").data
            ++ ((s1.data ++ ((beginMarker "d.tex").data
                  ++ (cd.data ++ ((endMarker "d.tex").data ++ s2.data))))
                ++ ((endMarker "b.tex").data
                      ++ (t2.data ++ ((beginMarker "c.tex").data
                            ++ ((u1.data ++ ((beginMarker "d.tex").data
                                  ++ (cd.data ++ ((endMarker "d.tex").data ++ u2.data))))
                                ++ ((endMarker "c.tex").data ++ t3.data))))))), 0, 2) := by
    rw [hcadata, resolveAux_text fm _ t1.data _ (backslashFree_spec h1),
      resolveAux_dir_expand fm _ _ _ _ (hmB _) hcont0b ("b.tex", cb) hfind_b hne_cb,
      hbq]
    rw [e_b, e_rest]
    simp [List.append_assoc]
  constructor
  · show String.mk (resolveAux fm ca.data []).1 = _
    rw [e_1]
    conv_rhs => rw [← string_mk_data (t1 ++ (beginMarker "b.tex"
            ++ (s1 ++ (beginMarker "d.tex" ++ (cd ++ (endMarker "d.tex" ++ s2)))
                ++ (endMarker "b.tex"
                      ++ (t2 ++ (beginMarker "c.tex"
                            ++ (u1 ++ (beginMarker "d.tex"
                                  ++ (cd ++ (endMarker "d.tex" ++ u2)))
                                ++ (endMarker "c.tex" ++ t3))))))))]
    exact congrArg String.mk (by simp [List.append_assoc])
  · show (resolveAux fm ca.data []).2.1 = 0
    rw [e_1]

/-- Witness for C2 at concrete texts. -/
theorem diamond_inclusion_witness :
    resolveLatexImports ("P" ++ "\\input{b}" ++ "Q" ++ "\\input{c}" ++ "R")
        [("a.tex", "P" ++ "\\input{b}" ++ "Q" ++ "\\input{c}" ++ "R"),
         ("b.tex", "S" ++ "\\input{d}" ++ "T"),
         ("c.tex", "U" ++ "\\input{d}" ++ "V"),
         ("d.tex", "W")] []
      = "P" ++ (beginMarker "b.tex"
            ++ ("S" ++ (beginMarker "d.tex" ++ ("W" ++ (endMarker "d.tex" ++ "T")))
                ++ (endMarker "b.tex"
                      ++ ("Q" ++ (beginMarker "c.tex"
                            ++ ("U" ++ (beginMarker "d.tex"
                                  ++ ("W" ++ (endMarker "d.tex" ++ "V")))
                                ++ (endMarker "c.tex" ++ "R")))))))
    ∧ loopCount ("P" ++ "\\input{b}" ++ "Q" ++ "\\input{c}" ++ "R")
        [("a.tex", "P" ++ "\\input{b}" ++ "Q" ++ "\\input{c}" ++ "R"),
         ("b.tex", "S" ++ "\\input{d}" ++ "T"),
         ("c.tex", "U" ++ "\\input{d}" ++ "V"),
         ("d.tex", "W")] [] = 0 :=
  diamond_inclusion "P" "Q" "R" "S" "T" "U" "V" "W" (by decide) (by decide) (by decide)
    (by decide) (by decide) (by decide) (by decide) (by decide) (by decide)

/-! ## Claim C10: self-inclusion of the entry file -/

/-- C10: the visited set starts empty and a name is added only when that
    file is expanded, so the entry file's own name is never in the initial
    set.  A `main.tex` whose content includes `main` is therefore expanded
    one extra time (its body appears twice), and the `Recursive loop
    detected` marker appears only inside that nested expansion — one level
    deep (`resolveDepth = 1`), not at the top level. -/
theorem self_include_expands_once (t1 t2 : String)
    (h1 : backslashFree t1 = true) (h2 : backslashFree t2 = true) :
    resolveLatexImports (t1 ++ "\\input{main}" ++ t2)
        [("main.tex", t1 ++ "\\input{main}" ++ t2)] []
      = t1 ++ (beginMarker "main.tex"
            ++ ((t1 ++ (loopMarker "main.tex" ++ t2))
                ++ (endMarker "main.tex" ++ t2)))
    ∧ loopCount (t1 ++ "\\input{main}" ++ t2)
        [("main.tex", t1 ++ "\\input{main}" ++ t2)] [] = 1
    ∧ resolveDepth (t1 ++ "\\input{main}" ++ t2)
        [("main.tex", t1 ++ "\\input{main}" ++ t2)] [] = 1 := by
  set cm := t1 ++ "\\input{main}" ++ t2 with hcm
  set fm : List (String × String) := [("main.tex", cm)] with hfm
  have hmq : normalizeImportName (String.mk "main".data) = "main.tex" := by decide
  have hcmdata : cm.data = t1.data ++ ("\\input{main}".data ++ t2.data) := by
    rw [hcm]; simp
  have hmM : ∀ r : Chars, matchDirective ("\\input{main}".data ++ r)
      = some ("main".data, r) :=
    fun r => matchDirective_input "main".data r (by decide) (by decide)
  have hcont0 : ([] : List String).contains (normalizeImportName (String.mk "main".data))
      = false := by decide
  have hcont1 : (["main.tex"] : List String).contains
      (normalizeImportName (String.mk "main".data)) = true := by decide
  have hne_cm : cm ≠ "" := by
    apply string_ne_empty_of_data
    rw [hcmdata]
    intro hh
    rw [List.append_eq_nil] at hh
    have : ("\\input{main}".data : Chars) ≠ [] := by decide
    exact this (List.append_eq_nil.mp hh.2).1
  have hfind_m : fm.find? (fun p => p.1 == normalizeImportName (String.mk "main".data))
      = some ("main.tex", cm) := by
    rw [hmq, hfm]
    rw [List.find?_cons_of_pos _ (by simp)]
  have e2 : resolveAux fm cm.data ["main.tex"]
      = (t1.data ++ ((loopMarker "main.tex").data ++ t2.data), 1, 0) := by
    rw [hcmdata, resolveAux_text fm _ t1.data _ (backslashFree_spec h1),
      resolveAux_dir_loop fm _ _ _ _ (hmM t2.data) hcont1,
      resolveAux_text_only fm _ t2.data (backslashFree_spec h2), hmq]
  have e1 : resolveAux fm cm.data []
      = (t1.data ++ ((beginMarker "main.tex").data
            ++ ((t1.data ++ ((loopMarker "main.tex").data ++ t2.data))
                ++ ((endMarker "main.tex").data ++ t2.data))), 1, 1) := by
    rw [hcmdata, resolveAux_text fm _ t1.data _ (backslashFree_spec h1),
      resolveAux_dir_expand fm _ _ _ _ (hmM t2.data) hcont0 ("main.tex", cm) hfind_m hne_cm,
      hmq]
    rw [e2, resolveAux_text_only fm _ t2.data (backslashFree_spec h2)]
    simp [List.append_assoc]
  refine ⟨?_, ?_, ?_⟩
  · show String.mk (resolveAux fm cm.data []).1 = _
    rw [e1]
    conv_rhs => rw [← string_mk_data (t1 ++ (beginMarker "main.tex"
            ++ ((t1 ++ (loopMarker "main.tex" ++ t2))
                ++ (endMarker "main.tex" ++ t2))))]
    exact congrArg String.mk (by simp [List.append_assoc])
  · show (resolveAux fm cm.data []).2.1 = 1
    rw [e1]
  · show (resolveAux fm cm.data []).2.2 = 1
    rw [e1]

/-- Witness for C10 at concrete surrounding texts. -/
theorem self_include_expands_once_witness :
    resolveLatexImports ("X" ++ "\\input{main}" ++ "Y")
        [("main.tex", "X" ++ "\\input{main}" ++ "Y")] []
      = "X" ++ (beginMarker "main.tex"
            ++ (("X" ++ (loopMarker "main.tex" ++ "Y"))
                ++ (endMarker "main.tex" ++ "Y")))
    ∧ loopCount ("X" ++ "\\input{main}" ++ "Y")
        [("main.tex", "X" ++ "\\input{main}" ++ "Y")] [] = 1
    ∧ resolveDepth ("X" ++ "\\input{main}" ++ "Y")
        [("main.tex", "X" ++ "\\input{main}" ++ "Y")] [] = 1 :=
  self_include_expands_once "X" "Y" (by decide) (by decide)

/-! ## Claim C9: a present-but-empty file behaves like a missing file -/

/-- C9: in `resolveLatexImports`, the guard `fileNode && fileNode.content`
    is falsy for a file whose content is the empty string, so a directive
    naming such a file is replaced by the inline `Missing file` marker —
    exactly the text produced when the file is absent from the map
    altogether (second conjunct) — and not by an empty expansion wrapped in
    `Begin`/`End` markers. -/
theorem empty_file_is_missing (fm : List (String × String)) (pr : List String)
    (path : String) (hp : path.data ≠ []) (hnb : ∀ c ∈ path.data, c ≠ '\x7d')
    (hcont : pr.contains (normalizeImportName path) = false)
    (hfind : fm.find? (fun p => p.1 == normalizeImportName path)
      = some (normalizeImportName path, "")) :
    resolveLatexImports ("\\input\x7b" ++ path ++ "\x7d") fm pr
      = missingMarker (normalizeImportName path)
    ∧ resolveLatexImports ("\\input\x7b" ++ path ++ "\x7d") [] pr
      = missingMarker (normalizeImportName path) := by
  have hshape : ("\\input\x7b" ++ path ++ "\x7d").data
      = '\\' :: "input".data ++ '\x7b' :: path.data ++ '\x7d' :: ([] : Chars) := by
    have h0 : ("\\input\x7b" ++ path ++ "\x7d").data
        = ("\\input\x7b".data ++ path.data) ++ "\x7d".data := rfl
    rw [h0, List.append_assoc]
    rfl
  have hm : matchDirective ('\\' :: "input".data ++ '\x7b' :: path.data
        ++ '\x7d' :: ([] : Chars)) = some (path.data, []) :=
    matchDirective_input path.data [] hp hnb
  have hcont' : pr.contains (normalizeImportName (String.mk path.data)) = false := hcont
  constructor
  · have hfind' : fm.find? (fun p => p.1 == normalizeImportName (String.mk path.data))
        = some (normalizeImportName (String.mk path.data), "") := hfind
    show String.mk (resolveAux fm ("\\input\x7b" ++ path ++ "\x7d").data pr).1 = _
    rw [hshape, resolveAux_dir_missing_empty fm pr _ path.data [] hm hcont'
        (normalizeImportName (String.mk path.data), "") hfind' rfl, resolveAux_nil]
    simp
  · have hfind0 : ([] : List (String × String)).find?
        (fun p => p.1 == normalizeImportName (String.mk path.data)) = none := rfl
    show String.mk (resolveAux [] ("\\input\x7b" ++ path ++ "\x7d").data pr).1 = _
    rw [hshape, resolveAux_dir_missing_absent [] pr _ path.data [] hm hcont' hfind0,
      resolveAux_nil]
    simp

/-- Witness for C9: the file `empty.tex` is present with empty content. -/
theorem empty_file_is_missing_witness :
    resolveLatexImports ("\\input\x7b" ++ "empty" ++ "\x7d") [("empty.tex", "")] []
      = missingMarker (normalizeImportName "empty")
    ∧ resolveLatexImports ("\\input\x7b" ++ "empty" ++ "\x7d") [] []
      = missingMarker (normalizeImportName "empty") :=
  empty_file_is_missing [("empty.tex", "")] [] "empty" (by decide) (by decide)
    (by decide) (by decide)

/-! ## Claim C8: no inclusion directive means identity -/

/-- Whether the inclusion-directive regex matches at some position of `l`. -/
def containsDirective : Chars → Bool
  | [] => false
  | c :: cs => (matchDirective (c :: cs)).isSome || containsDirective cs

/-- C8: on any text in which the inclusion-directive regex
    `\\(?:input|include)\{([^}]+)\}` has no match, `resolveLatexImports` is
    the identity, for every file map and every visited set. -/
theorem no_directive_identity (content : String) (fm : List (String × String))
    (pr : List String) (h : containsDirective content.data = false) :
    resolveLatexImports content fm pr = content := by
  show String.mk (resolveAux fm content.data pr).1 = content
  have key : ∀ l : Chars, containsDirective l = false → (resolveAux fm l pr).1 = l := by
    intro l
    induction l with
    | nil => intro _; rw [resolveAux_nil]
    | cons c cs ih =>
      intro hl
      rw [containsDirective] at hl
      simp only [Bool.or_eq_false_iff] at hl
      have hm : matchDirective (c :: cs) = none := by
        cases hmm : matchDirective (c :: cs) with
        | none => rfl
        | some v => rw [hmm] at hl; simp at hl
      rw [resolveAux_char fm pr c cs hm]
      simp [ih hl.2]
  rw [key content.data h]

/-- Witness for C8 on a directive-free document body. -/
theorem no_directive_identity_witness :
    resolveLatexImports "Hello World, no imports here." [("x.tex", "hi")] []
      = "Hello World, no imports here." :=
  no_directive_identity "Hello World, no imports here." [("x.tex", "hi")] [] (by decide)

/-! ## The structural pass of `parseLatexToHtml` (Preview, "step 9")

```js
let chapterCount = 0; let sectionCount = 0; let subsectionCount = 0;
processed = processed.replace(/\chapter\*?\{([^}]+)\}/g, (match, title) => {
    if (!match.includes('*')) chapterCount++;
    sectionCount = 0;
    return `<h1 ...>${match.includes('*') ? '' : chapterCount + '. '}${title}</h1>`;
});
processed = processed.replace(/\section\*?\{([^}]+)\}/g, (match, title) => {
    if (!match.includes('*')) sectionCount++;
    subsectionCount = 0;
    const num = chapterCount > 0 ? `${chapterCount}.${sectionCount}` : `${sectionCount}`;
    return `<h2 ...>${match.includes('*') ? '' : num + ' '}${title}</h2>`;
});
processed = processed.replace(/\subsection\*?\{([^}]+)\}/g, (match, title) => { ... });
```

The three replaces run sequentially over the whole text, sharing the three
mutable counters.  `match.includes('*')` is true when the star is present
or the title itself contains a star. -/

/-- A heading regex `\\kw\*?\{([^}]+)\}` anchored at the head of `l`:
    whether the star was present, the title, and the remaining text. -/
def matchHeading (kw : Chars) (l : Chars) : Option (Bool × Chars × Chars) :=
  match matchCmdArg kw l with
  | some (t, r) => some (false, t, r)
  | none =>
    match matchCmdArg (kw ++ ['*']) l with
    | some (t, r) => some (true, t, r)
    | none => none

theorem matchHeading_length {kw l : Chars} {star : Bool} {title rest : Chars}
    (h : matchHeading kw l = some (star, title, rest)) : rest.length < l.length := by
  unfold matchHeading at h
  cases h1 : matchCmdArg kw l with
  | some pr =>
    rw [h1] at h
    obtain ⟨t, r⟩ := pr
    cases h
    exact matchCmdArg_length h1
  | none =>
    rw [h1] at h
    cases h2 : matchCmdArg (kw ++ ['*']) l with
    | some pr =>
      rw [h2] at h
      obtain ⟨t, r⟩ := pr
      cases h
      exact matchCmdArg_length h2
    | none => rw [h2] at h; cases h

theorem matchHeading_head_ne {c : Char} (kw : Chars) (cs : Chars) (hc : c ≠ '\\') :
    matchHeading kw (c :: cs) = none := by
  unfold matchHeading
  rw [matchCmdArg_head_ne _ _ hc, matchCmdArg_head_ne _ _ hc]

theorem stripPrefixChars_append (p q r : Chars) :
    stripPrefixChars (p ++ q) (p ++ r) = stripPrefixChars q r := by
  induction p with
  | nil => rfl
  | cons a as ih => simp [stripPrefixChars, ih]

theorem matchHeading_at (kw : Chars) (t : String) (r : Chars)
    (ht : t.data ≠ []) (hnb : ∀ c ∈ t.data, c ≠ '\x7d') :
    matchHeading kw ('\\' :: kw ++ '\x7b' :: t.data ++ '\x7d' :: r)
      = some (false, t.data, r) := by
  unfold matchHeading
  rw [matchCmdArg_head kw t.data r ht hnb]

theorem matchHeading_at_star (kw : Chars) (t : String) (r : Chars)
    (ht : t.data ≠ []) (hnb : ∀ c ∈ t.data, c ≠ '\x7d') :
    matchHeading kw ('\\' :: kw ++ '*' :: '\x7b' :: t.data ++ '\x7d' :: r)
      = some (true, t.data, r) := by
  unfold matchHeading
  have h1 : matchCmdArg kw ('\\' :: kw ++ '*' :: '\x7b' :: t.data ++ '\x7d' :: r)
      = none := by
    unfold matchCmdArg
    have e1 : ('\\' :: (kw ++ ['\x7b'])) = ('\\' :: kw) ++ ['\x7b'] := by simp
    have e2 : ('\\' :: kw ++ '*' :: '\x7b' :: t.data ++ '\x7d' :: r)
        = ('\\' :: kw) ++ ('*' :: '\x7b' :: t.data ++ '\x7d' :: r) := by simp
    rw [e1, e2, stripPrefixChars_append]
    have : stripPrefixChars ['\x7b'] ('*' :: '\x7b' :: t.data ++ '\x7d' :: r) = none :=
      stripPrefixChars_head_ne (by decide)
    rw [this]
    rfl
  rw [h1]
  have e : ('\\' :: kw ++ '*' :: '\x7b' :: t.data ++ '\x7d' :: r)
      = ('\\' :: (kw ++ ['*']) ++ '\x7b' :: t.data ++ '\x7d' :: r) := by simp
  rw [e, matchCmdArg_head _ _ _ ht hnb]

/-- The three shared heading counters of `parseLatexToHtml`. -/
structure Counters where
  chapterCount : Nat
  sectionCount : Nat
  subsectionCount : Nat
deriving DecidableEq

/-- The `\chapter` replacer: increment the chapter counter unless starred,
    always reset the section counter, and emit the `<h1>` block (numbered
    `N. ` unless starred). -/
def chapterStep (st : Counters) (starred : Bool) (title : String) : Counters × String :=
  let st' : Counters :=
    { st with
      chapterCount := if starred then st.chapterCount else st.chapterCount + 1,
      sectionCount := 0 }
  (st', "<h1 class=\"text-3xl font-bold mt-8 mb-6 border-b pb-2\">"
      ++ (if starred then "" else toString st'.chapterCount ++ ". ")
      ++ title ++ "</h1>")

/-- The `\section` replacer: increment the section counter unless starred,
    always reset the subsection counter, and emit the `<h2>` block
    (numbered `C.S` when a chapter counter is active, else `S`). -/
def sectionStep (st : Counters) (starred : Bool) (title : String) : Counters × String :=
  let st' : Counters :=
    { st with
      sectionCount := if starred then st.sectionCount else st.sectionCount + 1,
      subsectionCount := 0 }
  let num := if st'.chapterCount > 0 then
      toString st'.chapterCount ++ "." ++ toString st'.sectionCount
    else toString st'.sectionCount
  (st', "<h2 class=\"text-2xl font-bold mt-6 mb-4 text-slate-800\">"
      ++ (if starred then "" else num ++ " ") ++ title ++ "</h2>")

/-- The `\subsection` replacer. -/
def subsectionStep (st : Counters) (starred : Bool) (title : String) :
    Counters × String :=
  let st' : Counters :=
    { st with
      subsectionCount := if starred then st.subsectionCount
        else st.subsectionCount + 1 }
  let num := if st'.chapterCount > 0 then
      toString st'.chapterCount ++ "." ++ toString st'.sectionCount ++ "."
        ++ toString st'.subsectionCount
    else toString st'.sectionCount ++ "." ++ toString st'.subsectionCount
  (st', "<h3 class=\"text-xl font-bold mt-4 mb-3 text-slate-700\">"
      ++ (if starred then "" else num ++ " ") ++ title ++ "</h3>")

/-- One `String.replace(/\\kw\*?\{([^}]+)\}/g, step)` pass threading the
    shared counters. -/
def headingPass (kw : Chars) (step : Counters → Bool → String → Counters × String)
    (st : Counters) (l : Chars) : Counters × Chars :=
  match l with
  | [] => (st, [])
  | c :: cs =>
    match hm : matchHeading kw (c :: cs) with
    | none =>
      let r := headingPass kw step st cs
      (r.1, c :: r.2)
    | some (star, title, rest) =>
      let starred := star || title.any (fun ch => ch == '*')
      let sr := step st starred (String.mk title)
      let r := headingPass kw step sr.1 rest
      (r.1, sr.2.data ++ r.2)
  termination_by l.length
  decreasing_by
  · simp
  · exact matchHeading_length hm

/-- "Step 9" of `parseLatexToHtml`: the chapter pass, then the section
    pass, then the subsection pass, over the whole text, sharing the
    counters (initially all zero).  Returns the final counters and the
    rewritten text. -/
def structureStage (l : Chars) : Counters × Chars :=
  let r1 := headingPass "chapter".data chapterStep ⟨0, 0, 0⟩ l
  let r2 := headingPass "section".data sectionStep r1.1 r1.2
  headingPass "subsection".data subsectionStep r2.1 r2.2

/-! ### Unfolding lemmas for `headingPass` -/

theorem headingPass_nil (kw : Chars) (step : Counters → Bool → String → Counters × String)
    (st : Counters) : headingPass kw step st [] = (st, []) := by
  rw [headingPass]

theorem headingPass_char (kw : Chars) (step : Counters → Bool → String → Counters × String)
    (st : Counters) (c : Char) (cs : Chars) (hm : matchHeading kw (c :: cs) = none) :
    headingPass kw step st (c :: cs)
      = ((headingPass kw step st cs).1, c :: (headingPass kw step st cs).2) := by
  rw [headingPass]
  split
  · rfl
  · rename_i star title rest heq
    rw [hm] at heq
    cases heq

theorem headingPass_match (kw : Chars) (step : Counters → Bool → String → Counters × String)
    (st : Counters) (l : Chars) (star : Bool) (title rest : Chars)
    (hm : matchHeading kw l = some (star, title, rest)) :
    headingPass kw step st l
      = ((headingPass kw step
            (step st (star || title.any (fun ch => ch == '*')) (String.mk title)).1 rest).1,
          (step st (star || title.any (fun ch => ch == '*')) (String.mk title)).2.data
            ++ (headingPass kw step
                  (step st (star || title.any (fun ch => ch == '*'))
                    (String.mk title)).1 rest).2) := by
  cases l with
  | nil =>
    have : matchHeading kw [] = none := by
      unfold matchHeading matchCmdArg
      rfl
    rw [this] at hm
    cases hm
  | cons c cs =>
    rw [headingPass]
    split
    · rename_i heq
      rw [hm] at heq
      cases heq
    · rename_i star' title' rest' heq
      rw [hm] at heq
      cases heq
      rfl

theorem headingPass_text (kw : Chars) (step : Counters → Bool → String → Counters × String)
    (st : Counters) (t rest : Chars) (ht : ∀ c ∈ t, c ≠ '\\') :
    headingPass kw step st (t ++ rest)
      = ((headingPass kw step st rest).1, t ++ (headingPass kw step st rest).2) := by
  induction t with
  | nil => simp
  | cons c cs ih =>
    have hm : matchHeading kw (c :: (cs ++ rest)) = none :=
      matchHeading_head_ne _ _ (ht c (by simp))
    have ih' := ih (fun x hx => ht x (by simp [hx]))
    rw [List.cons_append, headingPass_char kw step st c (cs ++ rest) hm, ih']
    rfl

/-! ### A token model of documents made of heading directives and plain text

`DocItem` describes a document as a list of plain-text fragments and
heading directives; `renderDoc` produces the concrete source text.  The
bridge lemmas below show that the character-level passes compute exactly
the token-level passes on such documents (under the cleanliness conditions
that make the regex matches unambiguous). -/

inductive DocItem where
  | txt : String → DocItem
  | chap : Bool → String → DocItem
  | sec : Bool → String → DocItem
  | sub : Bool → String → DocItem
deriving DecidableEq

/-- Concrete source text of one item (`true` = starred variant). -/
def DocItem.render : DocItem → Chars
  | .txt s => s.data
  | .chap star t =>
      '\\' :: "chapter".data ++ (if star then ['*'] else []) ++ '\x7b' :: t.data ++ ['\x7d']
  | .sec star t =>
      '\\' :: "section".data ++ (if star then ['*'] else []) ++ '\x7b' :: t.data ++ ['\x7d']
  | .sub star t =>
      '\\' :: "subsection".data ++ (if star then ['*'] else []) ++ '\x7b' :: t.data ++ ['\x7d']

def renderDoc : List DocItem → Chars
  | [] => []
  | i :: rest => i.render ++ renderDoc rest

/-- A title is clean when it is nonempty and contains no backslash, no
    closing brace and no star (so the directive matches as written and the
    star detection is decided by the starred flag alone). -/
def cleanTitle (t : String) : Bool :=
  !t.data.isEmpty && t.data.all (fun c => !(c == '\\' || c == '\x7d' || c == '*'))

def DocItem.clean : DocItem → Bool
  | .txt s => backslashFree s
  | .chap _ t => cleanTitle t
  | .sec _ t => cleanTitle t
  | .sub _ t => cleanTitle t

def cleanItems (items : List DocItem) : Bool := items.all DocItem.clean

theorem noBS_of_all {l : Chars} (h : l.all (fun c => !(c == '\\')) = true) :
    ∀ c ∈ l, c ≠ '\\' := by
  intro c hc
  have := List.all_eq_true.mp h c hc
  simpa using this

theorem noBS_append {a b : Chars} (ha : ∀ c ∈ a, c ≠ '\\') (hb : ∀ c ∈ b, c ≠ '\\') :
    ∀ c ∈ a ++ b, c ≠ '\\' := by
  intro c hc
  rcases List.mem_append.mp hc with h | h
  · exact ha c h
  · exact hb c h

theorem noBS_cons {a : Char} {b : Chars} (ha : a ≠ '\\') (hb : ∀ c ∈ b, c ≠ '\\') :
    ∀ c ∈ a :: b, c ≠ '\\' := by
  intro c hc
  rcases List.mem_cons.mp hc with rfl | h
  · exact ha
  · exact hb c h

theorem cleanTitle_spec {t : String} (h : cleanTitle t = true) :
    t.data ≠ [] ∧ (∀ c ∈ t.data, c ≠ '\\') ∧ (∀ c ∈ t.data, c ≠ '\x7d')
      ∧ t.data.any (fun ch => ch == '*') = false := by
  unfold cleanTitle at h
  rw [Bool.and_eq_true] at h
  obtain ⟨h1, h2⟩ := h
  have hall := List.all_eq_true.mp h2
  refine ⟨?_, ?_, ?_, ?_⟩
  · intro he
    rw [he] at h1
    simp at h1
  · intro c hc
    have := hall c hc
    simp only [Bool.or_eq_true, Bool.not_eq_true', Bool.or_eq_false_iff] at this
    simpa using this.1.1
  · intro c hc
    have := hall c hc
    simp only [Bool.or_eq_true, Bool.not_eq_true', Bool.or_eq_false_iff] at this
    simpa using this.1.2
  · rw [List.any_eq_false]
    intro c hc
    have := hall c hc
    simp only [Bool.or_eq_true, Bool.not_eq_true', Bool.or_eq_false_iff] at this
    simpa using this.2

/-! ### Anchored non-matches of the heading regexes (by computation) -/

theorem matchHeading_chapter_s (rest : Chars) :
    matchHeading "chapter".data ('\\' :: 's' :: rest) = none := rfl

theorem matchHeading_section_c (rest : Chars) :
    matchHeading "section".data ('\\' :: 'c' :: rest) = none := rfl

theorem matchHeading_section_su (rest : Chars) :
    matchHeading "section".data ('\\' :: 's' :: 'u' :: rest) = none := rfl

theorem matchHeading_subsection_c (rest : Chars) :
    matchHeading "subsection".data ('\\' :: 'c' :: rest) = none := rfl

theorem matchHeading_subsection_se (rest : Chars) :
    matchHeading "subsection".data ('\\' :: 's' :: 'e' :: rest) = none := rfl

/-- Skip step: a directive of another level starts with a backslash, fails
    to match, and its backslash-free tail passes through unchanged. -/
theorem headingPass_skip (kw : Chars) (step : Counters → Bool → String → Counters × String)
    (st : Counters) (tail rest : Chars)
    (hm : matchHeading kw ('\\' :: (tail ++ rest)) = none)
    (htail : ∀ x ∈ tail, x ≠ '\\') :
    headingPass kw step st ('\\' :: (tail ++ rest))
      = ((headingPass kw step st rest).1,
          '\\' :: (tail ++ (headingPass kw step st rest).2)) := by
  rw [headingPass_char kw step st '\\' _ hm, headingPass_text kw step st tail rest htail]

/-! ### Token-level passes and the bridge to the character-level passes -/

def tokChapterPass : Counters → List DocItem → Counters × List DocItem
  | st, [] => (st, [])
  | st, DocItem.chap star t :: rest =>
    let sr := chapterStep st star t
    let r := tokChapterPass sr.1 rest
    (r.1, DocItem.txt sr.2 :: r.2)
  | st, i :: rest =>
    let r := tokChapterPass st rest
    (r.1, i :: r.2)

def tokSectionPass : Counters → List DocItem → Counters × List DocItem
  | st, [] => (st, [])
  | st, DocItem.sec star t :: rest =>
    let sr := sectionStep st star t
    let r := tokSectionPass sr.1 rest
    (r.1, DocItem.txt sr.2 :: r.2)
  | st, i :: rest =>
    let r := tokSectionPass st rest
    (r.1, i :: r.2)

def tokSubsectionPass : Counters → List DocItem → Counters × List DocItem
  | st, [] => (st, [])
  | st, DocItem.sub star t :: rest =>
    let sr := subsectionStep st star t
    let r := tokSubsectionPass sr.1 rest
    (r.1, DocItem.txt sr.2 :: r.2)
  | st, i :: rest =>
    let r := tokSubsectionPass st rest
    (r.1, i :: r.2)

/-- The three token-level passes in source order, counters starting at 0. -/
def tokStructureStage (items : List DocItem) : Counters × List DocItem :=
  let r1 := tokChapterPass ⟨0, 0, 0⟩ items
  let r2 := tokSectionPass r1.1 r1.2
  tokSubsectionPass r2.1 r2.2

theorem cleanItems_cons {i : DocItem} {rest : List DocItem}
    (h : cleanItems (i :: rest) = true) :
    DocItem.clean i = true ∧ cleanItems rest = true := by
  unfold cleanItems at h ⊢
  rw [List.all_cons, Bool.and_eq_true] at h
  exact h

theorem chapterPass_bridge (items : List DocItem) (st : Counters)
    (h : cleanItems items = true) :
    headingPass "chapter".data chapterStep st (renderDoc items)
      = ((tokChapterPass st items).1, renderDoc (tokChapterPass st items).2) := by
  induction items generalizing st with
  | nil => simp [renderDoc, headingPass_nil, tokChapterPass]
  | cons i rest ih =>
    obtain ⟨hci, hcr⟩ := cleanItems_cons h
    cases i with
    | txt s =>
      have hshape : renderDoc (DocItem.txt s :: rest) = s.data ++ renderDoc rest := rfl
      rw [hshape, headingPass_text _ _ _ _ _ (backslashFree_spec hci), ih st hcr]
      simp [tokChapterPass, renderDoc, DocItem.render]
    | chap star t =>
      obtain ⟨hne, hbs, hbr, hstar⟩ := cleanTitle_spec hci
      cases star with
      | false =>
        have hshape : renderDoc (DocItem.chap false t :: rest)
            = '\\' :: "chapter".data ++ '\x7b' :: t.data ++ '\x7d' :: renderDoc rest := by
          show DocItem.render (DocItem.chap false t) ++ renderDoc rest = _
          simp [DocItem.render]
        rw [hshape,
          headingPass_match _ _ _ _ false t.data _ (matchHeading_at _ t _ hne hbr)]
        simp only [hstar, Bool.or_false, string_mk_data]
        rw [ih _ hcr]
        simp [tokChapterPass, renderDoc, DocItem.render]
      | true =>
        have hshape : renderDoc (DocItem.chap true t :: rest)
            = '\\' :: "chapter".data ++ '*' :: '\x7b' :: t.data ++ '\x7d' :: renderDoc rest := by
          show DocItem.render (DocItem.chap true t) ++ renderDoc rest = _
          simp [DocItem.render]
        rw [hshape,
          headingPass_match _ _ _ _ true t.data _ (matchHeading_at_star _ t _ hne hbr)]
        simp only [Bool.true_or, string_mk_data]
        rw [ih _ hcr]
        simp [tokChapterPass, renderDoc, DocItem.render]
    | sec star t =>
      obtain ⟨hne, hbs, hbr, hstar⟩ := cleanTitle_spec hci
      have hshape : renderDoc (DocItem.sec star t :: rest)
          = '\\' :: (("section".data ++ (if star then ['*'] else [])
              ++ '\x7b' :: t.data ++ ['\x7d']) ++ renderDoc rest) := by
        show DocItem.render (DocItem.sec star t) ++ renderDoc rest = _
        simp [DocItem.render]
      have htail : ∀ x ∈ ("section".data ++ (if star then ['*'] else ([] : Chars))
          ++ '\x7b' :: t.data ++ ['\x7d']), x ≠ '\\' := by
        have hA : ∀ x ∈ ("section".data : Chars), x ≠ '\\' := noBS_of_all (by decide)
        have hB : ∀ x ∈ (if star then ['*'] else ([] : Chars)), x ≠ '\\' := by
          cases star
          · intro x hx; simp at hx
          · exact noBS_of_all (by decide)
        have hC : ∀ x ∈ '\x7b' :: t.data, x ≠ '\\' := noBS_cons (by decide) hbs
        have hD : ∀ x ∈ (['\x7d'] : Chars), x ≠ '\\' := noBS_of_all (by decide)
        exact noBS_append (noBS_append (noBS_append hA hB) hC) hD
      have hm : matchHeading "chapter".data ('\\' :: (("section".data
          ++ (if star then ['*'] else []) ++ '\x7b' :: t.data ++ ['\x7d'])
          ++ renderDoc rest)) = none := matchHeading_chapter_s _
      rw [hshape, headingPass_skip _ _ _ _ _ hm htail, ih st hcr]
      simp [tokChapterPass, renderDoc, DocItem.render, List.append_assoc]
    | sub star t =>
      obtain ⟨hne, hbs, hbr, hstar⟩ := cleanTitle_spec hci
      have hshape : renderDoc (DocItem.sub star t :: rest)
          = '\\' :: (("subsection".data ++ (if star then ['*'] else [])
              ++ '\x7b' :: t.data ++ ['\x7d']) ++ renderDoc rest) := by
        show DocItem.render (DocItem.sub star t) ++ renderDoc rest = _
        simp [DocItem.render]
      have htail : ∀ x ∈ ("subsection".data ++ (if star then ['*'] else ([] : Chars))
          ++ '\x7b' :: t.data ++ ['\x7d']), x ≠ '\\' := by
        have hA : ∀ x ∈ ("subsection".data : Chars), x ≠ '\\' := noBS_of_all (by decide)
        have hB : ∀ x ∈ (if star then ['*'] else ([] : Chars)), x ≠ '\\' := by
          cases star
          · intro x hx; simp at hx
          · exact noBS_of_all (by decide)
        have hC : ∀ x ∈ '\x7b' :: t.data, x ≠ '\\' := noBS_cons (by decide) hbs
        have hD : ∀ x ∈ (['\x7d'] : Chars), x ≠ '\\' := noBS_of_all (by decide)
        exact noBS_append (noBS_append (noBS_append hA hB) hC) hD
      have hm : matchHeading "chapter".data ('\\' :: (("subsection".data
          ++ (if star then ['*'] else []) ++ '\x7b' :: t.data ++ ['\x7d'])
          ++ renderDoc rest)) = none := matchHeading_chapter_s _
      rw [hshape, headingPass_skip _ _ _ _ _ hm htail, ih st hcr]
      simp [tokChapterPass, renderDoc, DocItem.render, List.append_assoc]

theorem sectionPass_bridge (items : List DocItem) (st : Counters)
    (h : cleanItems items = true) :
    headingPass "section".data sectionStep st (renderDoc items)
      = ((tokSectionPass st items).1, renderDoc (tokSectionPass st items).2) := by
  induction items generalizing st with
  | nil => simp [renderDoc, headingPass_nil, tokSectionPass]
  | cons i rest ih =>
    obtain ⟨hci, hcr⟩ := cleanItems_cons h
    cases i with
    | txt s =>
      have hshape : renderDoc (DocItem.txt s :: rest) = s.data ++ renderDoc rest := rfl
      rw [hshape, headingPass_text _ _ _ _ _ (backslashFree_spec hci), ih st hcr]
      simp [tokSectionPass, renderDoc, DocItem.render]
    | sec star t =>
      obtain ⟨hne, hbs, hbr, hstar⟩ := cleanTitle_spec hci
      cases star with
      | false =>
        have hshape : renderDoc (DocItem.sec false t :: rest)
            = '\\' :: "section".data ++ '\x7b' :: t.data ++ '\x7d' :: renderDoc rest := by
          show DocItem.render (DocItem.sec false t) ++ renderDoc rest = _
          simp [DocItem.render]
        rw [hshape,
          headingPass_match _ _ _ _ false t.data _ (matchHeading_at _ t _ hne hbr)]
        simp only [hstar, Bool.or_false, string_mk_data]
        rw [ih _ hcr]
        simp [tokSectionPass, renderDoc, DocItem.render]
      | true =>
        have hshape : renderDoc (DocItem.sec true t :: rest)
            = '\\' :: "section".data ++ '*' :: '\x7b' :: t.data ++ '\x7d' :: renderDoc rest := by
          show DocItem.render (DocItem.sec true t) ++ renderDoc rest = _
          simp [DocItem.render]
        rw [hshape,
          headingPass_match _ _ _ _ true t.data _ (matchHeading_at_star _ t _ hne hbr)]
        simp only [Bool.true_or, string_mk_data]
        rw [ih _ hcr]
        simp [tokSectionPass, renderDoc, DocItem.render]
    | chap star t =>
      obtain ⟨hne, hbs, hbr, hstar⟩ := cleanTitle_spec hci
      have hshape : renderDoc (DocItem.chap star t :: rest)
          = '\\' :: (("chapter".data ++ (if star then ['*'] else [])
              ++ '\x7b' :: t.data ++ ['\x7d']) ++ renderDoc rest) := by
        show DocItem.render (DocItem.chap star t) ++ renderDoc rest = _
        simp [DocItem.render]
      have htail : ∀ x ∈ ("chapter".data ++ (if star then ['*'] else ([] : Chars))
          ++ '\x7b' :: t.data ++ ['\x7d']), x ≠ '\\' := by
        have hA : ∀ x ∈ ("chapter".data : Chars), x ≠ '\\' := noBS_of_all (by decide)
        have hB : ∀ x ∈ (if star then ['*'] else ([] : Chars)), x ≠ '\\' := by
          cases star
          · intro x hx; simp at hx
          · exact noBS_of_all (by decide)
        have hC : ∀ x ∈ '\x7b' :: t.data, x ≠ '\\' := noBS_cons (by decide) hbs
        have hD : ∀ x ∈ (['\x7d'] : Chars), x ≠ '\\' := noBS_of_all (by decide)
        exact noBS_append (noBS_append (noBS_append hA hB) hC) hD
      have hm : matchHeading "section".data ('\\' :: (("chapter".data
          ++ (if star then ['*'] else []) ++ '\x7b' :: t.data ++ ['\x7d'])
          ++ renderDoc rest)) = none := matchHeading_section_c _
      rw [hshape, headingPass_skip _ _ _ _ _ hm htail, ih st hcr]
      simp [tokSectionPass, renderDoc, DocItem.render, List.append_assoc]
    | sub star t =>
      obtain ⟨hne, hbs, hbr, hstar⟩ := cleanTitle_spec hci
      have hshape : renderDoc (DocItem.sub star t :: rest)
          = '\\' :: (("subsection".data ++ (if star then ['*'] else [])
              ++ '\x7b' :: t.data ++ ['\x7d']) ++ renderDoc rest) := by
        show DocItem.render (DocItem.sub star t) ++ renderDoc rest = _
        simp [DocItem.render]
      have htail : ∀ x ∈ ("subsection".data ++ (if star then ['*'] else ([] : Chars))
          ++ '\x7b' :: t.data ++ ['\x7d']), x ≠ '\\' := by
        have hA : ∀ x ∈ ("subsection".data : Chars), x ≠ '\\' := noBS_of_all (by decide)
        have hB : ∀ x ∈ (if star then ['*'] else ([] : Chars)), x ≠ '\\' := by
          cases star
          · intro x hx; simp at hx
          · exact noBS_of_all (by decide)
        have hC : ∀ x ∈ '\x7b' :: t.data, x ≠ '\\' := noBS_cons (by decide) hbs
        have hD : ∀ x ∈ (['\x7d'] : Chars), x ≠ '\\' := noBS_of_all (by decide)
        exact noBS_append (noBS_append (noBS_append hA hB) hC) hD
      have hm : matchHeading "section".data ('\\' :: (("subsection".data
          ++ (if star then ['*'] else []) ++ '\x7b' :: t.data ++ ['\x7d'])
          ++ renderDoc rest)) = none := matchHeading_section_su _
      rw [hshape, headingPass_skip _ _ _ _ _ hm htail, ih st hcr]
      simp [tokSectionPass, renderDoc, DocItem.render, List.append_assoc]

theorem subsectionPass_bridge (items : List DocItem) (st : Counters)
    (h : cleanItems items = true) :
    headingPass "subsection".data subsectionStep st (renderDoc items)
      = ((tokSubsectionPass st items).1, renderDoc (tokSubsectionPass st items).2) := by
  induction items generalizing st with
  | nil => simp [renderDoc, headingPass_nil, tokSubsectionPass]
  | cons i rest ih =>
    obtain ⟨hci, hcr⟩ := cleanItems_cons h
    cases i with
    | txt s =>
      have hshape : renderDoc (DocItem.txt s :: rest) = s.data ++ renderDoc rest := rfl
      rw [hshape, headingPass_text _ _ _ _ _ (backslashFree_spec hci), ih st hcr]
      simp [tokSubsectionPass, renderDoc, DocItem.render]
    | sub star t =>
      obtain ⟨hne, hbs, hbr, hstar⟩ := cleanTitle_spec hci
      cases star with
      | false =>
        have hshape : renderDoc (DocItem.sub false t :: rest)
            = '\\' :: "subsection".data ++ '\x7b' :: t.data ++ '\x7d' :: renderDoc rest := by
          show DocItem.render (DocItem.sub false t) ++ renderDoc rest = _
          simp [DocItem.render]
        rw [hshape,
          headingPass_match _ _ _ _ false t.data _ (matchHeading_at _ t _ hne hbr)]
        simp only [hstar, Bool.or_false, string_mk_data]
        rw [ih _ hcr]
        simp [tokSubsectionPass, renderDoc, DocItem.render]
      | true =>
        have hshape : renderDoc (DocItem.sub true t :: rest)
            = '\\' :: "subsection".data ++ '*' :: '\x7b' :: t.data ++ '\x7d' :: renderDoc rest := by
          show DocItem.render (DocItem.sub true t) ++ renderDoc rest = _
          simp [DocItem.render]
        rw [hshape,
          headingPass_match _ _ _ _ true t.data _ (matchHeading_at_star _ t _ hne hbr)]
        simp only [Bool.true_or, string_mk_data]
        rw [ih _ hcr]
        simp [tokSubsectionPass, renderDoc, DocItem.render]
    | chap star t =>
      obtain ⟨hne, hbs, hbr, hstar⟩ := cleanTitle_spec hci
      have hshape : renderDoc (DocItem.chap star t :: rest)
          = '\\' :: (("chapter".data ++ (if star then ['*'] else [])
              ++ '\x7b' :: t.data ++ ['\x7d']) ++ renderDoc rest) := by
        show DocItem.render (DocItem.chap star t) ++ renderDoc rest = _
        simp [DocItem.render]
      have htail : ∀ x ∈ ("chapter".data ++ (if star then ['*'] else ([] : Chars))
          ++ '\x7b' :: t.data ++ ['\x7d']), x ≠ '\\' := by
        have hA : ∀ x ∈ ("chapter".data : Chars), x ≠ '\\' := noBS_of_all (by decide)
        have hB : ∀ x ∈ (if star then ['*'] else ([] : Chars)), x ≠ '\\' := by
          cases star
          · intro x hx; simp at hx
          · exact noBS_of_all (by decide)
        have hC : ∀ x ∈ '\x7b' :: t.data, x ≠ '\\' := noBS_cons (by decide) hbs
        have hD : ∀ x ∈ (['\x7d'] : Chars), x ≠ '\\' := noBS_of_all (by decide)
        exact noBS_append (noBS_append (noBS_append hA hB) hC) hD
      have hm : matchHeading "subsection".data ('\\' :: (("chapter".data
          ++ (if star then ['*'] else []) ++ '\x7b' :: t.data ++ ['\x7d'])
          ++ renderDoc rest)) = none := matchHeading_subsection_c _
      rw [hshape, headingPass_skip _ _ _ _ _ hm htail, ih st hcr]
      simp [tokSubsectionPass, renderDoc, DocItem.render, List.append_assoc]
    | sec star t =>
      obtain ⟨hne, hbs, hbr, hstar⟩ := cleanTitle_spec hci
      have hshape : renderDoc (DocItem.sec star t :: rest)
          = '\\' :: (("section".data ++ (if star then ['*'] else [])
              ++ '\x7b' :: t.data ++ ['\x7d']) ++ renderDoc rest) := by
        show DocItem.render (DocItem.sec star t) ++ renderDoc rest = _
        simp [DocItem.render]
      have htail : ∀ x ∈ ("section".data ++ (if star then ['*'] else ([] : Chars))
          ++ '\x7b' :: t.data ++ ['\x7d']), x ≠ '\\' := by
        have hA : ∀ x ∈ ("section".data : Chars), x ≠ '\\' := noBS_of_all (by decide)
        have hB : ∀ x ∈ (if star then ['*'] else ([] : Chars)), x ≠ '\\' := by
          cases star
          · intro x hx; simp at hx
          · exact noBS_of_all (by decide)
        have hC : ∀ x ∈ '\x7b' :: t.data, x ≠ '\\' := noBS_cons (by decide) hbs
        have hD : ∀ x ∈ (['\x7d'] : Chars), x ≠ '\\' := noBS_of_all (by decide)
        exact noBS_append (noBS_append (noBS_append hA hB) hC) hD
      have hm : matchHeading "subsection".data ('\\' :: (("section".data
          ++ (if star then ['*'] else []) ++ '\x7b' :: t.data ++ ['\x7d'])
          ++ renderDoc rest)) = none := matchHeading_subsection_se _
      rw [hshape, headingPass_skip _ _ _ _ _ hm htail, ih st hcr]
      simp [tokSubsectionPass, renderDoc, DocItem.render, List.append_assoc]

/-! ### Cleanliness is preserved by the passes (decimal numerals, HTML tags
and clean titles contain no backslash) -/

theorem digitChar_ne_bs (m : Nat) : Nat.digitChar m ≠ '\\' := by
  rcases Nat.lt_or_ge m 16 with h16 | h16
  · interval_cases m <;> decide
  · have h : Nat.digitChar m = '*' := by
      unfold Nat.digitChar
      simp [show m ≠ 0 by omega, show m ≠ 1 by omega, show m ≠ 2 by omega,
        show m ≠ 3 by omega, show m ≠ 4 by omega, show m ≠ 5 by omega,
        show m ≠ 6 by omega, show m ≠ 7 by omega, show m ≠ 8 by omega,
        show m ≠ 9 by omega, show m ≠ 10 by omega, show m ≠ 11 by omega,
        show m ≠ 12 by omega, show m ≠ 13 by omega, show m ≠ 14 by omega,
        show m ≠ 15 by omega]
    rw [h]
    decide

theorem toDigitsCore_noBS (fuel n : Nat) (ds : Chars) (hds : ∀ c ∈ ds, c ≠ '\\') :
    ∀ c ∈ Nat.toDigitsCore 10 fuel n ds, c ≠ '\\' := by
  induction fuel generalizing n ds with
  | zero => simpa [Nat.toDigitsCore] using hds
  | succ fuel ih =>
    rw [Nat.toDigitsCore]
    split
    · exact noBS_cons (digitChar_ne_bs _) hds
    · exact ih _ _ (noBS_cons (digitChar_ne_bs _) hds)

theorem natToString_noBS (n : Nat) : ∀ c ∈ (toString n).data, c ≠ '\\' := by
  have h : (toString n).data = Nat.toDigits 10 n := rfl
  rw [h]
  unfold Nat.toDigits
  exact toDigitsCore_noBS _ _ _ (by intro c hc; cases hc)

theorem backslashFree_of_noBS {s : String} (h : ∀ c ∈ s.data, c ≠ '\\') :
    backslashFree s = true := by
  unfold backslashFree
  rw [List.all_eq_true]
  intro c hc
  simpa using h c hc

theorem string_append_data_noBS {a b : String} (ha : ∀ c ∈ a.data, c ≠ '\\')
    (hb : ∀ c ∈ b.data, c ≠ '\\') : ∀ c ∈ (a ++ b).data, c ≠ '\\' := by
  rw [string_data_append]
  exact noBS_append ha hb

theorem chapterStep_repl_noBS (st : Counters) (starred : Bool) (t : String)
    (ht : ∀ c ∈ t.data, c ≠ '\\') :
    ∀ c ∈ (chapterStep st starred t).2.data, c ≠ '\\' := by
  intro c hc
  unfold chapterStep at hc
  simp only [string_data_append, List.mem_append] at hc
  rcases hc with ((h | h) | h) | h
  · exact noBS_of_all (by decide) c h
  · cases starred
    · simp only [Bool.false_eq_true, if_false, string_data_append, List.mem_append] at h
      rcases h with h | h
      · exact natToString_noBS _ c h
      · exact noBS_of_all (by decide) c h
    · simp only [if_true] at h
      cases h
  · exact ht c h
  · exact noBS_of_all (by decide) c h

theorem sectionStep_repl_noBS (st : Counters) (starred : Bool) (t : String)
    (ht : ∀ c ∈ t.data, c ≠ '\\') :
    ∀ c ∈ (sectionStep st starred t).2.data, c ≠ '\\' := by
  intro c hc
  unfold sectionStep at hc
  simp only [string_data_append, List.mem_append] at hc
  rcases hc with ((h | h) | h) | h
  · exact noBS_of_all (by decide) c h
  · cases starred
    · simp only [Bool.false_eq_true, if_false, string_data_append, List.mem_append] at h
      rcases h with h | h
      · split at h
        · simp only [string_data_append, List.mem_append] at h
          rcases h with (h | h) | h
          · exact natToString_noBS _ c h
          · exact noBS_of_all (by decide) c h
          · exact natToString_noBS _ c h
        · exact natToString_noBS _ c h
      · exact noBS_of_all (by decide) c h
    · simp only [if_true] at h
      cases h
  · exact ht c h
  · exact noBS_of_all (by decide) c h

theorem subsectionStep_repl_noBS (st : Counters) (starred : Bool) (t : String)
    (ht : ∀ c ∈ t.data, c ≠ '\\') :
    ∀ c ∈ (subsectionStep st starred t).2.data, c ≠ '\\' := by
  intro c hc
  unfold subsectionStep at hc
  simp only [string_data_append, List.mem_append] at hc
  rcases hc with ((h | h) | h) | h
  · exact noBS_of_all (by decide) c h
  · cases starred
    · simp only [Bool.false_eq_true, if_false, string_data_append, List.mem_append] at h
      rcases h with h | h
      · split at h
        · simp only [string_data_append, List.mem_append] at h
          rcases h with (((h | h) | h) | h) | h
          · exact natToString_noBS _ c h
          · exact noBS_of_all (by decide) c h
          · exact natToString_noBS _ c h
          · exact noBS_of_all (by decide) c h
          · exact natToString_noBS _ c h
        · simp only [string_data_append, List.mem_append] at h
          rcases h with (h | h) | h
          · exact natToString_noBS _ c h
          · exact noBS_of_all (by decide) c h
          · exact natToString_noBS _ c h
      · exact noBS_of_all (by decide) c h
    · simp only [if_true] at h
      cases h
  · exact ht c h
  · exact noBS_of_all (by decide) c h

theorem cleanTitle_noBS {t : String} (h : cleanTitle t = true) :
    ∀ c ∈ t.data, c ≠ '\\' :=
  (cleanTitle_spec h).2.1

theorem tokChapterPass_clean (st : Counters) (items : List DocItem)
    (h : cleanItems items = true) :
    cleanItems (tokChapterPass st items).2 = true := by
  induction items generalizing st with
  | nil => simp [tokChapterPass, cleanItems]
  | cons i rest ih =>
    obtain ⟨hci, hcr⟩ := cleanItems_cons h
    cases i with
    | txt s =>
      simp only [tokChapterPass, cleanItems, List.all_cons, Bool.and_eq_true]
      exact ⟨hci, ih st hcr⟩
    | chap star t =>
      simp only [tokChapterPass, cleanItems, List.all_cons, Bool.and_eq_true]
      refine ⟨?_, ih _ hcr⟩
      exact backslashFree_of_noBS (chapterStep_repl_noBS _ _ _ (cleanTitle_noBS hci))
    | sec star t =>
      simp only [tokChapterPass, cleanItems, List.all_cons, Bool.and_eq_true]
      exact ⟨hci, ih st hcr⟩
    | sub star t =>
      simp only [tokChapterPass, cleanItems, List.all_cons, Bool.and_eq_true]
      exact ⟨hci, ih st hcr⟩

theorem tokSectionPass_clean (st : Counters) (items : List DocItem)
    (h : cleanItems items = true) :
    cleanItems (tokSectionPass st items).2 = true := by
  induction items generalizing st with
  | nil => simp [tokSectionPass, cleanItems]
  | cons i rest ih =>
    obtain ⟨hci, hcr⟩ := cleanItems_cons h
    cases i with
    | txt s =>
      simp only [tokSectionPass, cleanItems, List.all_cons, Bool.and_eq_true]
      exact ⟨hci, ih st hcr⟩
    | chap star t =>
      simp only [tokSectionPass, cleanItems, List.all_cons, Bool.and_eq_true]
      exact ⟨hci, ih st hcr⟩
    | sec star t =>
      simp only [tokSectionPass, cleanItems, List.all_cons, Bool.and_eq_true]
      refine ⟨?_, ih _ hcr⟩
      exact backslashFree_of_noBS (sectionStep_repl_noBS _ _ _ (cleanTitle_noBS hci))
    | sub star t =>
      simp only [tokSectionPass, cleanItems, List.all_cons, Bool.and_eq_true]
      exact ⟨hci, ih st hcr⟩

/-- The composed bridge: on a clean token document, "step 9" of
    `parseLatexToHtml` computes exactly the three token-level passes. -/
theorem structureStage_bridge (items : List DocItem) (h : cleanItems items = true) :
    structureStage (renderDoc items)
      = ((tokStructureStage items).1, renderDoc (tokStructureStage items).2) := by
  simp only [structureStage, tokStructureStage]
  rw [chapterPass_bridge items _ h,
    sectionPass_bridge _ _ (tokChapterPass_clean _ _ h),
    subsectionPass_bridge _ _ (tokSectionPass_clean _ _ (tokChapterPass_clean _ _ h))]

/-! ## Claim C3: the counters are NOT updated in textual order across levels -/

set_option maxRecDepth 4000 in
/-- C3 (divergence witness): the three heading replaces run sequentially —
    the chapter pass over the whole text first, then the section pass — so
    a `\section` placed after the second of three `\chapter`s sees the
    *final* chapter count 3 and is labeled `3.1`, not `2.1`.  The three
    chapters themselves are labeled `1.`, `2.`, `3.`. -/
theorem section_after_second_chapter_gets_3_1 :
    structureStage ("\\chapter{A}\\chapter{B}\\section{S}\\chapter{C}" : String).data
      = (⟨3, 1, 0⟩,
        ("<h1 class=\"text-3xl font-bold mt-8 mb-6 border-b pb-2\">1. A</h1><h1 class=\"text-3xl font-bold mt-8 mb-6 border-b pb-2\">2. B</h1><h2 class=\"text-2xl font-bold mt-6 mb-4 text-slate-800\">3.1 S</h2><h1 class=\"text-3xl font-bold mt-8 mb-6 border-b pb-2\">3. C</h1>" : String).data) := by
  have hdoc : ("\\chapter{A}\\chapter{B}\\section{S}\\chapter{C}" : String).data
      = renderDoc [DocItem.chap false "A", DocItem.chap false "B",
          DocItem.sec false "S", DocItem.chap false "C"] := by decide
  rw [hdoc, structureStage_bridge _ (by decide)]
  decide

/-! ## Claim C4: starred headings mutate nothing and carry no label -/

/-- Replace each starred heading by its rendered tag with no number label.
    `starred_headings_inert` shows this replacement does not change the
    result of the structural pass at all — so starred variants emit
    unnumbered tags and never affect any counter or any other heading. -/
def stripStarredItem : DocItem → DocItem
  | .chap true t =>
      .txt ("<h1 class=\"text-3xl font-bold mt-8 mb-6 border-b pb-2\">" ++ t ++ "</h1>")
  | .sec true t =>
      .txt ("<h2 class=\"text-2xl font-bold mt-6 mb-4 text-slate-800\">" ++ t ++ "</h2>")
  | .sub true t =>
      .txt ("<h3 class=\"text-xl font-bold mt-4 mb-3 text-slate-700\">" ++ t ++ "</h3>")
  | i => i

theorem string_append_empty (s : String) : s ++ "" = s := by
  show String.mk (s.data ++ []) = s
  rw [List.append_nil]

theorem chapterStep_starred_repl (st : Counters) (t : String) :
    (chapterStep st true t).2
      = "<h1 class=\"text-3xl font-bold mt-8 mb-6 border-b pb-2\">" ++ t ++ "</h1>" := by
  unfold chapterStep
  simp only [if_true]
  rw [string_append_empty]

theorem sectionStep_starred_repl (st : Counters) (t : String) :
    (sectionStep st true t).2
      = "<h2 class=\"text-2xl font-bold mt-6 mb-4 text-slate-800\">" ++ t ++ "</h2>" := by
  unfold sectionStep
  simp only [if_true]
  rw [string_append_empty]

theorem subsectionStep_starred_repl (st : Counters) (t : String) :
    (subsectionStep st true t).2
      = "<h3 class=\"text-xl font-bold mt-4 mb-3 text-slate-700\">" ++ t ++ "</h3>" := by
  unfold subsectionStep
  simp only [if_true]
  rw [string_append_empty]

theorem chapterStep_starred_state (st : Counters) (t : String)
    (h : st.sectionCount = 0) : (chapterStep st true t).1 = st := by
  obtain ⟨a, b, c⟩ := st
  simp only [Counters.mk.injEq] at h ⊢
  unfold chapterStep
  simp_all

theorem sectionStep_starred_state (st : Counters) (t : String)
    (h : st.subsectionCount = 0) : (sectionStep st true t).1 = st := by
  obtain ⟨a, b, c⟩ := st
  unfold sectionStep
  simp_all

theorem subsectionStep_starred_state (st : Counters) (t : String) :
    (subsectionStep st true t).1 = st := by
  obtain ⟨a, b, c⟩ := st
  unfold subsectionStep
  simp

theorem chapterStep_sectionCount (st : Counters) (starred : Bool) (t : String) :
    (chapterStep st starred t).1.sectionCount = 0 := rfl

theorem sectionStep_subsectionCount (st : Counters) (starred : Bool) (t : String) :
    (sectionStep st starred t).1.subsectionCount = 0 := rfl

theorem chapterStep_subsectionCount (st : Counters) (starred : Bool) (t : String) :
    (chapterStep st starred t).1.subsectionCount = st.subsectionCount := rfl

theorem tokChapterPass_subsectionCount (st : Counters) (items : List DocItem) :
    (tokChapterPass st items).1.subsectionCount = st.subsectionCount := by
  induction items generalizing st with
  | nil => rfl
  | cons i rest ih =>
    cases i with
    | txt s => exact ih st
    | chap star t =>
      show (tokChapterPass (chapterStep st star t).1 rest).1.subsectionCount = _
      rw [ih]
      exact chapterStep_subsectionCount st star t
    | sec star t => exact ih st
    | sub star t => exact ih st

theorem tokChapterPass_strip (items : List DocItem) (st : Counters)
    (h : st.sectionCount = 0) :
    tokChapterPass st (items.map stripStarredItem)
      = ((tokChapterPass st items).1,
          (tokChapterPass st items).2.map stripStarredItem) := by
  induction items generalizing st with
  | nil => rfl
  | cons i rest ih =>
    cases i with
    | txt s =>
      show tokChapterPass st (DocItem.txt s :: rest.map stripStarredItem) = _
      simp only [tokChapterPass]
      rw [ih st h]
      rfl
    | chap star t =>
      cases star with
      | false =>
        show tokChapterPass st (DocItem.chap false t :: rest.map stripStarredItem) = _
        simp only [tokChapterPass]
        rw [ih _ (chapterStep_sectionCount st false t)]
        rfl
      | true =>
        show tokChapterPass st (DocItem.txt _ :: rest.map stripStarredItem) = _
        simp only [tokChapterPass]
        rw [ih st h]
        simp only [List.map_cons]
        rw [chapterStep_starred_state st t h, chapterStep_starred_repl st t]
        rfl
    | sec star t =>
      cases star with
      | false =>
        show tokChapterPass st (DocItem.sec false t :: rest.map stripStarredItem) = _
        simp only [tokChapterPass]
        rw [ih st h]
        rfl
      | true =>
        show tokChapterPass st (DocItem.txt _ :: rest.map stripStarredItem) = _
        simp only [tokChapterPass]
        rw [ih st h]
        rfl
    | sub star t =>
      cases star with
      | false =>
        show tokChapterPass st (DocItem.sub false t :: rest.map stripStarredItem) = _
        simp only [tokChapterPass]
        rw [ih st h]
        rfl
      | true =>
        show tokChapterPass st (DocItem.txt _ :: rest.map stripStarredItem) = _
        simp only [tokChapterPass]
        rw [ih st h]
        rfl

theorem tokSectionPass_strip (items : List DocItem) (st : Counters)
    (h : st.subsectionCount = 0) :
    tokSectionPass st (items.map stripStarredItem)
      = ((tokSectionPass st items).1,
          (tokSectionPass st items).2.map stripStarredItem) := by
  induction items generalizing st with
  | nil => rfl
  | cons i rest ih =>
    cases i with
    | txt s =>
      show tokSectionPass st (DocItem.txt s :: rest.map stripStarredItem) = _
      simp only [tokSectionPass]
      rw [ih st h]
      rfl
    | sec star t =>
      cases star with
      | false =>
        show tokSectionPass st (DocItem.sec false t :: rest.map stripStarredItem) = _
        simp only [tokSectionPass]
        rw [ih _ (sectionStep_subsectionCount st false t)]
        rfl
      | true =>
        show tokSectionPass st (DocItem.txt _ :: rest.map stripStarredItem) = _
        simp only [tokSectionPass]
        rw [ih st h]
        simp only [List.map_cons]
        rw [sectionStep_starred_state st t h, sectionStep_starred_repl st t]
        rfl
    | chap star t =>
      cases star with
      | false =>
        show tokSectionPass st (DocItem.chap false t :: rest.map stripStarredItem) = _
        simp only [tokSectionPass]
        rw [ih st h]
        rfl
      | true =>
        show tokSectionPass st (DocItem.txt _ :: rest.map stripStarredItem) = _
        simp only [tokSectionPass]
        rw [ih st h]
        rfl
    | sub star t =>
      cases star with
      | false =>
        show tokSectionPass st (DocItem.sub false t :: rest.map stripStarredItem) = _
        simp only [tokSectionPass]
        rw [ih st h]
        rfl
      | true =>
        show tokSectionPass st (DocItem.txt _ :: rest.map stripStarredItem) = _
        simp only [tokSectionPass]
        rw [ih st h]
        rfl

theorem tokSubsectionPass_strip (items : List DocItem) (st : Counters) :
    tokSubsectionPass st (items.map stripStarredItem)
      = ((tokSubsectionPass st items).1,
          (tokSubsectionPass st items).2.map stripStarredItem) := by
  induction items generalizing st with
  | nil => rfl
  | cons i rest ih =>
    cases i with
    | txt s =>
      show tokSubsectionPass st (DocItem.txt s :: rest.map stripStarredItem) = _
      simp only [tokSubsectionPass]
      rw [ih st]
      rfl
    | sub star t =>
      cases star with
      | false =>
        show tokSubsectionPass st (DocItem.sub false t :: rest.map stripStarredItem) = _
        simp only [tokSubsectionPass]
        rw [ih _]
        rfl
      | true =>
        show tokSubsectionPass st (DocItem.txt _ :: rest.map stripStarredItem) = _
        simp only [tokSubsectionPass]
        rw [ih st]
        simp only [List.map_cons]
        rw [subsectionStep_starred_state st t, subsectionStep_starred_repl st t]
        rfl
    | chap star t =>
      cases star with
      | false =>
        show tokSubsectionPass st (DocItem.chap false t :: rest.map stripStarredItem) = _
        simp only [tokSubsectionPass]
        rw [ih st]
        rfl
      | true =>
        show tokSubsectionPass st (DocItem.txt _ :: rest.map stripStarredItem) = _
        simp only [tokSubsectionPass]
        rw [ih st]
        rfl
    | sec star t =>
      cases star with
      | false =>
        show tokSubsectionPass st (DocItem.sec false t :: rest.map stripStarredItem) = _
        simp only [tokSubsectionPass]
        rw [ih st]
        rfl
      | true =>
        show tokSubsectionPass st (DocItem.txt _ :: rest.map stripStarredItem) = _
        simp only [tokSubsectionPass]
        rw [ih st]
        rfl

def DocItem.isTxt : DocItem → Bool
  | .txt _ => true
  | _ => false

def noChap (l : List DocItem) : Bool :=
  l.all fun i => match i with | .chap _ _ => false | _ => true

def noSec (l : List DocItem) : Bool :=
  l.all fun i => match i with | .sec _ _ => false | _ => true

def allTxt (l : List DocItem) : Bool := l.all DocItem.isTxt

theorem tokChapterPass_noChap (st : Counters) (items : List DocItem) :
    noChap (tokChapterPass st items).2 = true := by
  induction items generalizing st with
  | nil => rfl
  | cons i rest ih =>
    cases i <;>
      simp only [tokChapterPass, noChap, List.all_cons, Bool.and_eq_true] <;>
      exact ⟨trivial, ih _⟩

theorem tokSectionPass_noSec (st : Counters) (items : List DocItem) :
    noSec (tokSectionPass st items).2 = true := by
  induction items generalizing st with
  | nil => rfl
  | cons i rest ih =>
    cases i <;>
      simp only [tokSectionPass, noSec, List.all_cons, Bool.and_eq_true] <;>
      exact ⟨trivial, ih _⟩

theorem tokSectionPass_noChap (st : Counters) (items : List DocItem)
    (h : noChap items = true) : noChap (tokSectionPass st items).2 = true := by
  induction items generalizing st with
  | nil => rfl
  | cons i rest ih =>
    rw [noChap, List.all_cons, Bool.and_eq_true] at h
    cases i with
    | txt s =>
      simp only [tokSectionPass, noChap, List.all_cons, Bool.and_eq_true]
      exact ⟨trivial, ih _ h.2⟩
    | chap star t =>
      have := h.1
      simp at this
    | sec star t =>
      simp only [tokSectionPass, noChap, List.all_cons, Bool.and_eq_true]
      exact ⟨trivial, ih _ h.2⟩
    | sub star t =>
      simp only [tokSectionPass, noChap, List.all_cons, Bool.and_eq_true]
      exact ⟨trivial, ih _ h.2⟩

theorem tokSubsectionPass_allTxt (st : Counters) (items : List DocItem)
    (hc : noChap items = true) (hs : noSec items = true) :
    allTxt (tokSubsectionPass st items).2 = true := by
  induction items generalizing st with
  | nil => rfl
  | cons i rest ih =>
    rw [noChap, List.all_cons, Bool.and_eq_true] at hc
    rw [noSec, List.all_cons, Bool.and_eq_true] at hs
    cases i with
    | txt s =>
      simp only [tokSubsectionPass, allTxt, List.all_cons, Bool.and_eq_true]
      exact ⟨rfl, ih _ hc.2 hs.2⟩
    | chap star t =>
      have := hc.1
      simp at this
    | sec star t =>
      have := hs.1
      simp at this
    | sub star t =>
      simp only [tokSubsectionPass, allTxt, List.all_cons, Bool.and_eq_true]
      exact ⟨rfl, ih _ hc.2 hs.2⟩

theorem strip_id_of_allTxt (l : List DocItem) (h : allTxt l = true) :
    l.map stripStarredItem = l := by
  induction l with
  | nil => rfl
  | cons i rest ih =>
    rw [allTxt, List.all_cons, Bool.and_eq_true] at h
    cases i with
    | txt s => simp only [List.map_cons, stripStarredItem, ih h.2]
    | chap star t => cases h.1
    | sec star t => cases h.1
    | sub star t => cases h.1

theorem stripStarredItem_clean (i : DocItem) (h : DocItem.clean i = true) :
    DocItem.clean (stripStarredItem i) = true := by
  cases i with
  | txt s => exact h
  | chap star t =>
    cases star
    · exact h
    · show backslashFree _ = true
      apply backslashFree_of_noBS
      intro c hc
      simp only [string_data_append, List.mem_append] at hc
      rcases hc with (h1 | h1) | h1
      · exact noBS_of_all (by decide) c h1
      · exact cleanTitle_noBS h c h1
      · exact noBS_of_all (by decide) c h1
  | sec star t =>
    cases star
    · exact h
    · show backslashFree _ = true
      apply backslashFree_of_noBS
      intro c hc
      simp only [string_data_append, List.mem_append] at hc
      rcases hc with (h1 | h1) | h1
      · exact noBS_of_all (by decide) c h1
      · exact cleanTitle_noBS h c h1
      · exact noBS_of_all (by decide) c h1
  | sub star t =>
    cases star
    · exact h
    · show backslashFree _ = true
      apply backslashFree_of_noBS
      intro c hc
      simp only [string_data_append, List.mem_append] at hc
      rcases hc with (h1 | h1) | h1
      · exact noBS_of_all (by decide) c h1
      · exact cleanTitle_noBS h c h1
      · exact noBS_of_all (by decide) c h1

theorem stripStarred_cleanItems (items : List DocItem) (h : cleanItems items = true) :
    cleanItems (items.map stripStarredItem) = true := by
  unfold cleanItems at h ⊢
  rw [List.all_map]
  rw [List.all_eq_true] at h ⊢
  intro i hi
  exact stripStarredItem_clean i (h i hi)

/-- C4: a starred (unnumbered) heading variant at any of the three levels
    leaves all three counters unchanged and its output carries no number
    label: over any clean document, replacing every starred heading
    directive in the source by its plain unnumbered `<hN>` tag changes
    nothing in the result of the structural pass — neither the final
    counters nor any other heading's label. -/
theorem starred_headings_inert (items : List DocItem) (h : cleanItems items = true) :
    structureStage (renderDoc items)
      = structureStage (renderDoc (items.map stripStarredItem)) := by
  have h' := stripStarred_cleanItems items h
  rw [structureStage_bridge items h, structureStage_bridge _ h']
  simp only [tokStructureStage]
  rw [tokChapterPass_strip items ⟨0, 0, 0⟩ rfl]
  dsimp only
  rw [tokSectionPass_strip _ _ (by rw [tokChapterPass_subsectionCount])]
  dsimp only
  rw [tokSubsectionPass_strip]
  dsimp only
  rw [strip_id_of_allTxt _
    (tokSubsectionPass_allTxt _ _
      (tokSectionPass_noChap _ _ (tokChapterPass_noChap _ _))
      (tokSectionPass_noSec _ _))]

/-- Witness for C4: a document with a starred chapter, section and
    subsection between numbered ones. -/
theorem starred_headings_inert_witness :
    structureStage (renderDoc
        [DocItem.chap false "A", DocItem.chap true "X", DocItem.sec true "Y",
         DocItem.sec false "B", DocItem.sub true "Z", DocItem.sub false "C",
         DocItem.txt "body"])
      = structureStage (renderDoc
          ([DocItem.chap false "A", DocItem.chap true "X", DocItem.sec true "Y",
            DocItem.sec false "B", DocItem.sub true "Z", DocItem.sub false "C",
            DocItem.txt "body"].map stripStarredItem)) :=
  starred_headings_inert _ (by decide)

/-! ## The math passes of `parseLatexToHtml` ("step 13")

```js
// Simple inline math fallback
processed = processed.replace(/\$([^$]+)\$/g, (match, math) =>
    katex.renderToString(math, { throwOnError: false }));
// Display math
processed = processed.replace(/\$\$([\s\S]*?)\$\$/g, (match, math) =>
    `<div class="my-4 text-center">${katex.renderToString(math, { displayMode: true, throwOnError: false })}</div>`);
// Handle \[ ... \]
processed = processed.replace(/\\\[([\s\S]*?)\\\]/g, ...same as display...);
```

The external `katex.renderToString` calls (configured to never throw) are
modelled as the parameters `kI` (inline mode) and `kD` (display mode).
The source runs the inline pass FIRST, then the `$$` display pass, then
the `\[..\]` pass. -/

/-- `` `<div class="my-4 text-center">${...}</div>` `` -/
def displayWrap (s : String) : String :=
  "<div class=\"my-4 text-center\">" ++ s ++ "</div>"

/-- The inline-math regex replace `/\$([^$]+)\$/g`: at a `$`, the regex
    matches when at least one non-`$` character is followed by a closing
    `$`; otherwise the scan advances one character. -/
def inlineMathPass (kI : String → String) : Chars → Chars
  | [] => []
  | c :: cs =>
    if c = '$' then
      match h : takeUntil '$' cs with
      | some (body, rest) =>
        if body = [] then c :: inlineMathPass kI cs
        else (kI (String.mk body)).data ++ inlineMathPass kI rest
      | none => c :: inlineMathPass kI cs
    else c :: inlineMathPass kI cs
  termination_by l => l.length
  decreasing_by
  all_goals simp only [List.length_cons]
  all_goals try omega
  all_goals
    (have heq := takeUntil_eq h
     subst heq
     simp
     omega)

/-- Lazy scan to the first `$$` (the body of `([\s\S]*?)` before it). -/
def takeUntilDD : Chars → Option (Chars × Chars)
  | [] => none
  | [_] => none
  | c :: c2 :: rest =>
    if c = '$' ∧ c2 = '$' then some ([], rest)
    else (takeUntilDD (c2 :: rest)).map fun br => (c :: br.1, br.2)

theorem takeUntilDD_eq {l b r : Chars} (h : takeUntilDD l = some (b, r)) :
    l = b ++ '$' :: '$' :: r := by
  induction l generalizing b r with
  | nil => simp [takeUntilDD] at h
  | cons c cs ih =>
    cases cs with
    | nil => simp [takeUntilDD] at h
    | cons c2 cs2 =>
      rw [takeUntilDD] at h
      split at h
      · rename_i hdd
        obtain ⟨rfl, rfl⟩ := hdd
        rw [Option.some.injEq, Prod.mk.injEq] at h
        obtain ⟨hb, hr⟩ := h
        subst hb hr
        rfl
      · rw [Option.map_eq_some'] at h
        obtain ⟨⟨b0, r0⟩, hb0, hval⟩ := h
        cases hval
        simpa using ih hb0

/-- The display-math regex replace `/\$\$([\s\S]*?)\$\$/g`: at a `$$`, the
    lazy body runs to the next `$$`; with no closing `$$` there is no match
    and the scan advances one character. -/
def displayMathPass (kD : String → String) : Chars → Chars
  | [] => []
  | [c] => [c]
  | c :: c2 :: cs =>
    if c = '$' ∧ c2 = '$' then
      match h : takeUntilDD cs with
      | some (body, rest) =>
        (displayWrap (kD (String.mk body))).data ++ displayMathPass kD rest
      | none => c :: displayMathPass kD (c2 :: cs)
    else c :: displayMathPass kD (c2 :: cs)
  termination_by l => l.length
  decreasing_by
  all_goals simp only [List.length_cons]
  all_goals try omega
  all_goals
    (have heq := takeUntilDD_eq h
     subst heq
     simp
     omega)

/-- Lazy scan to the first `\]`. -/
def takeUntilBrk : Chars → Option (Chars × Chars)
  | [] => none
  | [_] => none
  | c :: c2 :: rest =>
    if c = '\\' ∧ c2 = ']' then some ([], rest)
    else (takeUntilBrk (c2 :: rest)).map fun br => (c :: br.1, br.2)

theorem takeUntilBrk_eq {l b r : Chars} (h : takeUntilBrk l = some (b, r)) :
    l = b ++ '\\' :: ']' :: r := by
  induction l generalizing b r with
  | nil => simp [takeUntilBrk] at h
  | cons c cs ih =>
    cases cs with
    | nil => simp [takeUntilBrk] at h
    | cons c2 cs2 =>
      rw [takeUntilBrk] at h
      split at h
      · rename_i hdd
        obtain ⟨rfl, rfl⟩ := hdd
        rw [Option.some.injEq, Prod.mk.injEq] at h
        obtain ⟨hb, hr⟩ := h
        subst hb hr
        rfl
      · rw [Option.map_eq_some'] at h
        obtain ⟨⟨b0, r0⟩, hb0, hval⟩ := h
        cases hval
        simpa using ih hb0

/-- The bracket display-math regex replace `/\\\[([\s\S]*?)\\\]/g`. -/
def bracketMathPass (kD : String → String) : Chars → Chars
  | [] => []
  | [c] => [c]
  | c :: c2 :: cs =>
    if c = '\\' ∧ c2 = '[' then
      match h : takeUntilBrk cs with
      | some (body, rest) =>
        (displayWrap (kD (String.mk body))).data ++ bracketMathPass kD rest
      | none => c :: bracketMathPass kD (c2 :: cs)
    else c :: bracketMathPass kD (c2 :: cs)
  termination_by l => l.length
  decreasing_by
  all_goals simp only [List.length_cons]
  all_goals try omega
  all_goals
    (have heq := takeUntilBrk_eq h
     subst heq
     simp
     omega)

/-- "Step 13" of `parseLatexToHtml` in source order: inline `$...$` first,
    then `$$...$$`, then `\[...\]`. -/
def mathStage (kI kD : String → String) (l : Chars) : Chars :=
  bracketMathPass kD (displayMathPass kD (inlineMathPass kI l))

/-! ### Unfolding and pass-through lemmas for the math passes -/

theorem inlineMathPass_not_dollar (kI : String → String) (c : Char) (cs : Chars)
    (hc : c ≠ '$') : inlineMathPass kI (c :: cs) = c :: inlineMathPass kI cs := by
  rw [inlineMathPass, if_neg hc]

theorem inlineMathPass_none (kI : String → String) (cs : Chars)
    (h : takeUntil '$' cs = none) :
    inlineMathPass kI ('$' :: cs) = '$' :: inlineMathPass kI cs := by
  rw [inlineMathPass, if_pos rfl]
  split
  · rename_i heq
    rw [h] at heq
    cases heq
  · rfl

theorem inlineMathPass_empty (kI : String → String) (cs r : Chars)
    (h : takeUntil '$' cs = some ([], r)) :
    inlineMathPass kI ('$' :: cs) = '$' :: inlineMathPass kI cs := by
  rw [inlineMathPass, if_pos rfl]
  split
  · rename_i body rest heq
    rw [h] at heq
    cases heq
    rw [if_pos rfl]
  · rename_i heq
    rw [h] at heq

theorem inlineMathPass_matched (kI : String → String) (cs b r : Chars)
    (h : takeUntil '$' cs = some (b, r)) (hb : b ≠ []) :
    inlineMathPass kI ('$' :: cs)
      = (kI (String.mk b)).data ++ inlineMathPass kI r := by
  rw [inlineMathPass, if_pos rfl]
  split
  · rename_i body rest heq
    rw [h] at heq
    cases heq
    rw [if_neg hb]
  · rename_i heq
    rw [h] at heq
    cases heq

theorem displayMathPass_single (kD : String → String) (c : Char) :
    displayMathPass kD [c] = [c] := by
  rw [displayMathPass]

theorem displayMathPass_cons_ne (kD : String → String) (c c2 : Char) (cs : Chars)
    (hc : ¬(c = '$' ∧ c2 = '$')) :
    displayMathPass kD (c :: c2 :: cs) = c :: displayMathPass kD (c2 :: cs) := by
  rw [displayMathPass, if_neg hc]

theorem displayMathPass_dd_none (kD : String → String) (cs : Chars)
    (h : takeUntilDD cs = none) :
    displayMathPass kD ('$' :: '$' :: cs) = '$' :: displayMathPass kD ('$' :: cs) := by
  rw [displayMathPass, if_pos ⟨rfl, rfl⟩]
  split
  · rename_i heq
    rw [h] at heq
    cases heq
  · rfl

theorem displayMathPass_text_dollar (kD : String → String) (l : Chars)
    (hl : ∀ c ∈ l, c ≠ '$') :
    displayMathPass kD (l ++ ['$']) = l ++ ['$'] := by
  induction l with
  | nil => exact displayMathPass_single kD '$'
  | cons c l' ih =>
    have hc : c ≠ '$' := hl c (by simp)
    have ih' := ih (fun x hx => hl x (by simp [hx]))
    cases l' with
    | nil =>
      rw [show (c :: ([] : Chars)) ++ ['$'] = c :: '$' :: [] from rfl,
        displayMathPass_cons_ne kD c '$' [] (by simp [hc]),
        displayMathPass_single]
    | cons d l'' =>
      have ih2 : displayMathPass kD (d :: (l'' ++ ['$'])) = d :: (l'' ++ ['$']) := ih'
      rw [show ((c :: d :: l'') ++ ['$']) = c :: d :: (l'' ++ ['$']) from rfl,
        displayMathPass_cons_ne kD c d (l'' ++ ['$']) (by simp [hc]), ih2]

/-- With no inner `$`, the display pass leaves `$m$`-shaped text unchanged:
    the leading `$$` case can only arise when `m` is empty, and then the
    closing `$$` is missing. -/
theorem displayMathPass_wrap (kD : String → String) (m : Chars)
    (hm : ∀ c ∈ m, c ≠ '$') :
    displayMathPass kD ('$' :: m ++ ['$']) = '$' :: m ++ ['$'] := by
  cases m with
  | nil =>
    rw [show ('$' :: ([] : Chars) ++ ['$']) = '$' :: '$' :: [] from rfl,
      displayMathPass_dd_none kD [] rfl, displayMathPass_single]
  | cons c m' =>
    have hc : c ≠ '$' := hm c (by simp)
    rw [show ('$' :: (c :: m') ++ ['$']) = '$' :: c :: (m' ++ ['$']) from rfl,
      displayMathPass_cons_ne kD '$' c (m' ++ ['$']) (by simp [hc])]
    have htd : displayMathPass kD (c :: (m' ++ ['$'])) = c :: (m' ++ ['$']) :=
      displayMathPass_text_dollar kD (c :: m') hm
    rw [htd]

theorem bracketMathPass_single (kD : String → String) (c : Char) :
    bracketMathPass kD [c] = [c] := by
  rw [bracketMathPass]

theorem bracketMathPass_cons_ne (kD : String → String) (c c2 : Char) (cs : Chars)
    (hc : ¬(c = '\\' ∧ c2 = '[')) :
    bracketMathPass kD (c :: c2 :: cs) = c :: bracketMathPass kD (c2 :: cs) := by
  rw [bracketMathPass, if_neg hc]

theorem bracketMathPass_noBS (kD : String → String) (l : Chars)
    (hl : ∀ c ∈ l, c ≠ '\\') :
    bracketMathPass kD l = l := by
  induction l with
  | nil => rw [bracketMathPass]
  | cons c cs ih =>
    have hc : c ≠ '\\' := hl c (by simp)
    have ih' := ih (fun x hx => hl x (by simp [hx]))
    cases cs with
    | nil => exact bracketMathPass_single kD c
    | cons c2 cs2 =>
      rw [bracketMathPass_cons_ne kD c c2 cs2 (by simp [hc]), ih']

/-! ## Claim C5: the inline pass runs first and mis-splits `$$e$$` -/

/-- C5 (divergence witness): `parseLatexToHtml` applies the inline `$...$`
    replace *before* the display `$$...$$` replace, so a display span
    `$$e$$` is mis-split: the inline regex consumes the inner `$e$`,
    leaving a stray `$` on each side, for every katex renderer whose inline
    output contains no `$` or `\` — it is never rendered as the single
    centered display block `displayWrap (kD "e")`. -/
theorem display_span_missplit (kI kD : String → String)
    (h1 : ∀ c ∈ (kI "e").data, c ≠ '$') (h2 : ∀ c ∈ (kI "e").data, c ≠ '\\') :
    mathStage kI kD ("$$e$$").data = '$' :: (kI "e").data ++ ['$']
    ∧ mathStage kI kD ("$$e$$").data ≠ (displayWrap (kD "e")).data := by
  have hin : inlineMathPass kI ("$$e$$").data = '$' :: (kI "e").data ++ ['$'] := by
    have s1 : takeUntil '$' ('$' :: 'e' :: '$' :: '$' :: []) = some ([], 'e' :: '$' :: '$' :: []) := rfl
    have s2 : takeUntil '$' ('e' :: '$' :: '$' :: []) = some (['e'], ['$']) := rfl
    have s3 : takeUntil '$' ([] : Chars) = none := rfl
    show inlineMathPass kI ('$' :: '$' :: 'e' :: '$' :: '$' :: []) = _
    rw [inlineMathPass_empty kI _ _ s1, inlineMathPass_matched kI _ _ _ s2 (by simp),
      inlineMathPass_none kI _ s3, inlineMathPass]
    rfl
  have hmain : mathStage kI kD ("$$e$$").data = '$' :: (kI "e").data ++ ['$'] := by
    unfold mathStage
    rw [hin, displayMathPass_wrap kD _ h1]
    exact bracketMathPass_noBS kD _ (noBS_cons (by decide) (noBS_append h2 (by decide)))
  refine ⟨hmain, ?_⟩
  rw [hmain]
  intro hcontra
  have hhead := congrArg (fun l => l.headD ' ') hcontra
  simp [displayWrap] at hhead

/-- Witness for C5 with concrete renderers. -/
theorem display_span_missplit_witness :
    mathStage (fun s => "<KI>" ++ s ++ "</KI>") (fun s => "<KD>" ++ s ++ "</KD>")
        ("$$e$$").data
      = '$' :: (("<KI>" ++ "e" ++ "</KI>" : String)).data ++ ['$']
    ∧ mathStage (fun s => "<KI>" ++ s ++ "</KI>") (fun s => "<KD>" ++ s ++ "</KD>")
        ("$$e$$").data
      ≠ (displayWrap ("<KD>" ++ "e" ++ "</KD>")).data :=
  display_span_missplit (fun s => "<KI>" ++ s ++ "</KI>") (fun s => "<KD>" ++ s ++ "</KD>")
    (by decide) (by decide)

/-! ## The image binder of `parseLatexToHtml` ("step 8")

```js
processed = processed.replace(/\\includegraphics(?:\[.*?\])?\{([^}]+)\}/g, (match, path) => {
    const filename = path.split('/').pop() || path;
    let src = assets[filename] || assets[filename + '.png']
           || assets[filename + '.jpg'] || assets[filename + '.jpeg'];
    if (!src) {
         Object.keys(assets).forEach(key => {
             if (key.includes(filename)) src = assets[key];
         });
    }
    if (src) { return `<img src="${src}" ... />`; }
    return `<div ...>Missing Image: ${filename}</div>`;
});
```

The asset map is an association list in key-insertion order; `x || y` is JS
truthy choice (`undefined` and `""` fall through), and the `forEach`
re-assigns `src` at EVERY key containing the basename, so the last such
key wins. -/

/-- `path.split('/').pop() || path`. -/
def imageBasename (path : String) : String :=
  let last := (splitOnSlash path.data).getLastD []
  if last = [] then path else String.mk last

/-- `assets[k]` on the association-list model of a JS record. -/
def lookupJS (assets : List (String × String)) (k : String) : Option String :=
  (assets.find? (fun p => p.1 == k)).map (fun p => p.2)

/-- JS truthiness of a possibly-absent string. -/
def truthy : Option String → Bool
  | none => false
  | some s => !(s == "")

/-- JS `x || y`. -/
def jsOr (a b : Option String) : Option String := if truthy a then a else b

/-- JS `haystack.includes(needle)`. -/
def isSubstr (needle : Chars) : Chars → Bool
  | [] => needle.isEmpty
  | c :: t => needle.isPrefixOf (c :: t) || isSubstr needle t

def isSubstrS (needle haystack : String) : Bool := isSubstr needle.data haystack.data

/-- The `src` computed for one image directive: the `||` chain over the
    exact and extension-augmented keys, then (only when that chain is
    falsy) the `forEach` overwrite over all keys containing the basename. -/
def resolveImgSrc (assets : List (String × String)) (filename : String) : Option String :=
  let src0 := jsOr (jsOr (jsOr (lookupJS assets filename)
      (lookupJS assets (filename ++ ".png")))
      (lookupJS assets (filename ++ ".jpg")))
      (lookupJS assets (filename ++ ".jpeg"))
  if truthy src0 then src0
  else assets.foldl
    (fun src kv => if isSubstr filename.data kv.1.data then some kv.2 else src) src0

/-- `` `<img src="${src}" alt="${filename}" .../>` `` -/
def imgTag (src filename : String) : String :=
  "<img src=\"" ++ src ++ "\" alt=\"" ++ filename
    ++ "\" style=\"max-width: 100%; height: auto; display: block; margin: 1rem auto;\" />"

/-- The missing-image placeholder div. -/
def missingImageDiv (filename : String) : String :=
  "<div class=\"bg-red-50 border border-red-200 text-red-500 text-xs p-2 text-center rounded my-4 font-mono\">Missing Image: "
    ++ filename ++ "</div>"

/-- The full replacer for one `\includegraphics` directive. -/
def includegraphicsReplace (assets : List (String × String)) (path : String) : String :=
  let filename := imageBasename path
  match resolveImgSrc assets filename with
  | some s => if s = "" then missingImageDiv filename else imgTag s filename
  | none => missingImageDiv filename

/-- The resolution order as the specification words it (claim C6): exact
    key match, then raster extensions appended, then the FIRST asset key
    containing the basename as a substring; earliest success wins. -/
def specAssetLookupFirst (assets : List (String × String)) (filename : String) :
    Option String :=
  match lookupJS assets filename with
  | some s => some s
  | none =>
    match lookupJS assets (filename ++ ".png") with
    | some s => some s
    | none =>
      match lookupJS assets (filename ++ ".jpg") with
      | some s => some s
      | none =>
        match lookupJS assets (filename ++ ".jpeg") with
        | some s => some s
        | none =>
          match assets.find? (fun kv => isSubstr filename.data kv.1.data) with
          | some kv => some kv.2
          | none => none

/-- The amended resolution order: as the claim states it, except that the
    substring fallback binds the LAST matching key in key order. -/
def assetLookupLastSub (assets : List (String × String)) (filename : String) :
    Option String :=
  match lookupJS assets filename with
  | some s => some s
  | none =>
    match lookupJS assets (filename ++ ".png") with
    | some s => some s
    | none =>
      match lookupJS assets (filename ++ ".jpg") with
      | some s => some s
      | none =>
        match lookupJS assets (filename ++ ".jpeg") with
        | some s => some s
        | none =>
          match assets.reverse.find? (fun kv => isSubstr filename.data kv.1.data) with
          | some kv => some kv.2
          | none => none

/-- C6 (counterexample): two asset keys contain the basename `logo`; the
    code binds the LAST one (`dataB`), while the claim's first-match rule
    binds `dataA`. -/
theorem asset_substring_binds_last_counterexample :
    resolveImgSrc [("a-logo.png", "dataA"), ("b-logo.png", "dataB")] "logo" = some "dataB"
    ∧ specAssetLookupFirst [("a-logo.png", "dataA"), ("b-logo.png", "dataB")] "logo"
        = some "dataA"
    ∧ ("dataA" : String) ≠ "dataB" := by
  refine ⟨by decide, by decide, by decide⟩

theorem lookupJS_mem {assets : List (String × String)} {k s : String}
    (h : lookupJS assets k = some s) : ∃ p ∈ assets, p.2 = s := by
  unfold lookupJS at h
  rw [Option.map_eq_some'] at h
  obtain ⟨p, hp, hps⟩ := h
  exact ⟨p, List.mem_of_find?_eq_some hp, hps⟩

theorem truthy_lookup {assets : List (String × String)} {k : String}
    (hv : ∀ p ∈ assets, p.2 ≠ "") :
    truthy (lookupJS assets k) = (lookupJS assets k).isSome := by
  cases h : lookupJS assets k with
  | none => rfl
  | some s =>
    obtain ⟨p, hp, hps⟩ := lookupJS_mem h
    have : s ≠ "" := hps ▸ hv p hp
    simp [truthy, this]

theorem foldl_overwrite (p : String × String → Bool) (l : List (String × String)) :
    ∀ init : Option String,
      l.foldl (fun src kv => if p kv then some kv.2 else src) init
        = match l.reverse.find? p with
          | some kv => some kv.2
          | none => init := by
  induction l with
  | nil => intro init; rfl
  | cons a t ih =>
    intro init
    rw [List.foldl_cons, ih, List.reverse_cons, List.find?_append]
    cases ht : t.reverse.find? p with
    | some kv => simp
    | none =>
      simp only [Option.none_orElse]
      by_cases hp : p a = true
      · simp [List.find?, hp]
      · simp [List.find?, hp]

/-- C6 (amended): when every asset value is nonempty (a data URL), the
    code's binding follows exactly the order: exact key, `.png`, `.jpg`,
    `.jpeg`, then the LAST key containing the basename as a substring. -/
theorem asset_resolution_order (assets : List (String × String)) (filename : String)
    (hv : ∀ p ∈ assets, p.2 ≠ "") :
    resolveImgSrc assets filename = assetLookupLastSub assets filename := by
  unfold resolveImgSrc assetLookupLastSub jsOr
  cases h1 : lookupJS assets filename with
  | some s1 =>
    obtain ⟨p, hp, hps⟩ := lookupJS_mem h1
    have hne : s1 ≠ "" := hps ▸ hv p hp
    simp [truthy, hne]
  | none =>
    simp only [truthy]
    cases h2 : lookupJS assets (filename ++ ".png") with
    | some s2 =>
      obtain ⟨p, hp, hps⟩ := lookupJS_mem h2
      have hne : s2 ≠ "" := hps ▸ hv p hp
      simp [truthy, hne]
    | none =>
      simp only [truthy]
      cases h3 : lookupJS assets (filename ++ ".jpg") with
      | some s3 =>
        obtain ⟨p, hp, hps⟩ := lookupJS_mem h3
        have hne : s3 ≠ "" := hps ▸ hv p hp
        simp [truthy, hne]
      | none =>
        simp only [truthy]
        cases h4 : lookupJS assets (filename ++ ".jpeg") with
        | some s4 =>
          obtain ⟨p, hp, hps⟩ := lookupJS_mem h4
          have hne : s4 ≠ "" := hps ▸ hv p hp
          simp [truthy, hne]
        | none =>
          simp only [truthy, Bool.false_eq_true, if_false]
          rw [foldl_overwrite]

/-- Witness for the amended C6 order at a concrete asset map. -/
theorem asset_resolution_order_witness :
    resolveImgSrc [("a-logo.png", "dataA"), ("b-logo.png", "dataB")] "logo"
      = assetLookupLastSub [("a-logo.png", "dataA"), ("b-logo.png", "dataB")] "logo" :=
  asset_resolution_order [("a-logo.png", "dataA"), ("b-logo.png", "dataB")] "logo"
    (by decide)

/-! The compile entry point `handleRecompile` (src/App.tsx lines 237-298).
The project is a tree of file/folder nodes; `flattenProjectFiles` collects
file nodes into a record keyed by name (`acc[node.name] = node`, so a later
same-named file overwrites the value but keeps the key slot), `findNode`
searches the tree by id, and the entry file is chosen as: the `main.tex`
key, else the active node when its name ends in `.tex`, else the first
value whose name ends in `.tex`.  `mainFile && mainFile.content` guards the
success branch, whose logs depend on `resolvedContent.includes('\\documentclass')`;
otherwise a single error log is set and no content or assets are updated. -/

/-- A node of the project tree: a file carries `content` (the empty string
    standing for JS `undefined`, both falsy), a folder carries children. -/
inductive FsTree where
  | file (id name content : String) : FsTree
  | folder (id name : String) (children : List FsTree) : FsTree

def FsTree.nodeId : FsTree → String
  | .file i _ _ => i
  | .folder i _ _ => i

def FsTree.nodeName : FsTree → String
  | .file _ n _ => n
  | .folder _ n _ => n

/-- A folder's `content` is `undefined`, read back as the falsy `""`. -/
def FsTree.nodeContent : FsTree → String
  | .file _ _ c => c
  | .folder _ _ _ => ""

/-- A file's `children` is `undefined`, read back as `[]`. -/
def FsTree.childrenOf : FsTree → List FsTree
  | .file _ _ _ => []
  | .folder _ _ ch => ch

/-- JS `name.endsWith(suffix)`. -/
def hasSuffix (suf s : String) : Bool := suf.data.isSuffixOf s.data

/-- `acc[k] = v` on a JS record held as an association list in key-insertion
    order: replace in place when the key exists, append otherwise. -/
def assocUpsert (m : List (String × String)) (k v : String) :
    List (String × String) :=
  if m.any (fun p => p.1 == k) then
    m.map (fun p => if p.1 == k then (k, v) else p)
  else m ++ [(k, v)]

/-- `flattenProjectFiles` over a worklist of nodes: files are upserted by
    name; a folder contributes its children before the rest. -/
def flattenList (acc : List (String × String)) :
    List FsTree → List (String × String)
  | [] => acc
  | .file _ nm c :: rest => flattenList (assocUpsert acc nm c) rest
  | .folder _ _ ch :: rest => flattenList (flattenList acc ch) rest
termination_by l => sizeOf l

/-- `findNode(nodes, id)`: first node (file or folder) with the given id,
    descending into children before continuing with later siblings. -/
def findNode (i : String) : List FsTree → Option FsTree
  | [] => none
  | .file f nm c :: rest =>
    if f == i then some (.file f nm c) else findNode i rest
  | .folder f nm ch :: rest =>
    if f == i then some (.folder f nm ch)
    else
      match findNode i ch with
      | some found => some found
      | none => findNode i rest
termination_by l => sizeOf l

/-- Every node of a worklist of trees, in visit order. -/
def allNodesList : List FsTree → List FsTree
  | [] => []
  | .file f nm c :: rest => .file f nm c :: allNodesList rest
  | .folder f nm ch :: rest =>
    .folder f nm ch :: (allNodesList ch ++ allNodesList rest)
termination_by l => sizeOf l

inductive LogType where
  | info | warning | error
deriving DecidableEq

/-- One log entry (LogEntry without the id/timestamp bookkeeping). -/
structure Diag where
  type : LogType
  message : String
  file : Option String
deriving DecidableEq

/-- What one run of `handleRecompile` pushes into React state: `none` for
    a state setter that is not called on that path. -/
structure CompileOutcome where
  rendered : Option String
  assets : Option (List (String × String))
  logs : List Diag
deriving DecidableEq

def lowerStr (s : String) : String := String.mk (s.data.map Char.toLower)

/-- The asset regex `/\.(png|jpe?g|gif|svg)$/i`. -/
def isImageName (name : String) : Bool :=
  let low := lowerStr name
  hasSuffix ".png" low || hasSuffix ".jpg" low || hasSuffix ".jpeg" low
    || hasSuffix ".gif" low || hasSuffix ".svg" low

def errorLog : Diag :=
  ⟨LogType.error, "No main LaTeX file found to compile.", none⟩

/-- `handleRecompile` over a project root and the active file id. -/
def handleRecompile (root : FsTree) (activeFileId : String) : CompileOutcome :=
  let fileMap := flattenList [] [root]
  let mainFile : Option (String × String) :=
    match fileMap.find? (fun p => p.1 == "main.tex") with
    | some m => some m
    | none =>
      match findNode activeFileId (FsTree.childrenOf root) with
      | some a =>
        if hasSuffix ".tex" (FsTree.nodeName a) then
          some (FsTree.nodeName a, FsTree.nodeContent a)
        else fileMap.find? (fun p => hasSuffix ".tex" p.1)
      | none => fileMap.find? (fun p => hasSuffix ".tex" p.1)
  match mainFile with
  | some m =>
    if m.2 = "" then
      { rendered := none, assets := none, logs := [errorLog] }
    else
      let resolvedContent := resolveLatexImports m.2 fileMap
      let assets := fileMap.filter (fun p => !(p.2 == "") && isImageName p.1)
      let logs : List Diag :=
        if isSubstrS "\\documentclass" resolvedContent then
          [⟨LogType.info, "Compilation finished. Output: project.pdf", none⟩]
        else
          [⟨LogType.warning,
            "Missing \\documentclass declaration. Preview may not render correctly.",
            some m.1⟩]
      { rendered := some resolvedContent, assets := some assets, logs := logs }
  | none => { rendered := none, assets := none, logs := [errorLog] }

theorem assocUpsert_key {m : List (String × String)} {k v : String} :
    ∀ q ∈ assocUpsert m k v, q.1 = k ∨ ∃ r ∈ m, q.1 = r.1 := by
  intro q hq
  unfold assocUpsert at hq
  split at hq
  · rw [List.mem_map] at hq
    obtain ⟨r, hr, hqr⟩ := hq
    by_cases hk : (r.1 == k) = true
    · rw [if_pos hk] at hqr; left; rw [← hqr]
    · rw [if_neg hk] at hqr; right; exact ⟨r, hr, by rw [← hqr]⟩
  · rw [List.mem_append] at hq
    rcases hq with hin | hin
    · right; exact ⟨q, hin, rfl⟩
    · left; rw [List.mem_singleton] at hin; rw [hin]

theorem flattenList_keys : ∀ (acc : List (String × String)) (l : List FsTree),
    ∀ p ∈ flattenList acc l,
      (∃ n ∈ allNodesList l, p.1 = FsTree.nodeName n) ∨ ∃ q ∈ acc, p.1 = q.1
  | acc, [], p, hp => by
    right
    refine ⟨p, ?_, rfl⟩
    simpa [flattenList] using hp
  | acc, .file i nm c :: rest, p, hp => by
    simp only [flattenList] at hp
    rcases flattenList_keys (assocUpsert acc nm c) rest p hp with
      ⟨n, hn, he⟩ | ⟨q, hq, hpq⟩
    · refine Or.inl ⟨n, ?_, he⟩
      simp only [allNodesList, List.mem_cons]
      exact Or.inr hn
    · rcases assocUpsert_key q hq with hk | ⟨r, hr, hqr⟩
      · refine Or.inl ⟨FsTree.file i nm c, ?_, ?_⟩
        · simp [allNodesList]
        · rw [hpq, hk]; rfl
      · exact Or.inr ⟨r, hr, hpq.trans hqr⟩
  | acc, .folder i nm ch :: rest, p, hp => by
    simp only [flattenList] at hp
    rcases flattenList_keys (flattenList acc ch) rest p hp with
      ⟨n, hn, he⟩ | ⟨q, hq, hpq⟩
    · refine Or.inl ⟨n, ?_, he⟩
      simp only [allNodesList, List.mem_cons, List.mem_append]
      exact Or.inr (Or.inr hn)
    · rcases flattenList_keys acc ch q hq with ⟨n, hn, he⟩ | ⟨r, hr, hqr⟩
      · refine Or.inl ⟨n, ?_, hpq.trans he⟩
        simp only [allNodesList, List.mem_cons, List.mem_append]
        exact Or.inr (Or.inl hn)
      · exact Or.inr ⟨r, hr, hpq.trans hqr⟩
termination_by acc l => sizeOf l

theorem findNode_mem (i : String) : ∀ (l : List FsTree) (n : FsTree),
    findNode i l = some n → n ∈ allNodesList l
  | [], n, h => by simp [findNode] at h
  | .file f nm c :: rest, n, h => by
    simp only [findNode] at h
    split at h
    · cases h; simp [allNodesList]
    · simp only [allNodesList, List.mem_cons]
      exact Or.inr (findNode_mem i rest n h)
  | .folder f nm ch :: rest, n, h => by
    simp only [findNode] at h
    split at h
    · cases h; simp [allNodesList]
    · cases hc : findNode i ch with
      | some found =>
        rw [hc] at h
        cases h
        simp only [allNodesList, List.mem_cons, List.mem_append]
        exact Or.inr (Or.inl (findNode_mem i ch _ hc))
      | none =>
        rw [hc] at h
        simp only [allNodesList, List.mem_cons, List.mem_append]
        exact Or.inr (Or.inr (findNode_mem i rest n h))
termination_by l => sizeOf l

/-- C7: when no node of the project tree has a name ending in `.tex`, the
    compile short-circuits: no content is rendered, no assets are bound,
    and the logs are exactly one error entry. -/
theorem no_entry_file_short_circuit (root : FsTree) (activeFileId : String)
    (h : ∀ n ∈ allNodesList [root], hasSuffix ".tex" (FsTree.nodeName n) = false) :
    handleRecompile root activeFileId
      = ⟨none, none, [⟨LogType.error, "No main LaTeX file found to compile.", none⟩]⟩ := by
  have hmap : ∀ p ∈ flattenList [] [root], hasSuffix ".tex" p.1 = false := by
    intro p hp
    rcases flattenList_keys [] [root] p hp with ⟨n, hn, he⟩ | ⟨q, hq, _⟩
    · rw [he]; exact h n hn
    · simp at hq
  have h1 : (flattenList [] [root]).find? (fun p => p.1 == "main.tex") = none := by
    rw [List.find?_eq_none]
    intro p hp hq
    rw [beq_iff_eq] at hq
    have hfx := hmap p hp
    rw [hq] at hfx
    exact absurd hfx (by decide)
  have h2 : (flattenList [] [root]).find? (fun p => hasSuffix ".tex" p.1) = none := by
    rw [List.find?_eq_none]
    intro p hp hq
    rw [hmap p hp] at hq
    exact Bool.false_ne_true hq
  simp only [handleRecompile, h1]
  cases hfn : findNode activeFileId (FsTree.childrenOf root) with
  | none => simp only [h2, errorLog]
  | some a =>
    have ha : a ∈ allNodesList [root] := by
      cases root with
      | file i nm c => simp [findNode, FsTree.childrenOf] at hfn
      | folder i nm ch =>
        have hm := findNode_mem activeFileId ch a
          (by simpa [FsTree.childrenOf] using hfn)
        simp only [allNodesList, List.mem_cons, List.mem_append]
        exact Or.inr (Or.inl hm)
    have hna := h a ha
    simp [hna, h2, errorLog]

/-- C7 witness: compiling the empty project (a root folder with no
    children) yields no rendered output, no assets, and one error log. -/
theorem no_entry_file_short_circuit_witness :
    handleRecompile (FsTree.folder "root" "Project" []) "f1"
      = ⟨none, none, [⟨LogType.error, "No main LaTeX file found to compile.", none⟩]⟩ :=
  no_entry_file_short_circuit (FsTree.folder "root" "Project" []) "f1" (by
    intro n hn
    simp only [allNodesList, List.append_nil, List.mem_singleton] at hn
    subst hn
    decide)

end MeuTeX
